import Mathlib

/-!
A shallow embedding of the Sealdice welcome bot (`welcome.py`): the frame
router and action-correlation channel, the debounced welcome scheduler, the
keyword trigger engine with cooldown, the trigger on/off switch command, and
the durable toggle-state loader.  Each definition translates the Python
function of the same (romanized) name; theorems at the end settle the
specification claims.
-/

set_option autoImplicit false
set_option maxHeartbeats 1000000

namespace WelcomeBot

/-! ## Text utilities (Python `str.lower`, `strip`, `in`) -/

/-- Python `str.lower`, modelled character-wise. -/
def lowerStr (s : String) : List Char := s.toList.map Char.toLower

/-- The whitespace characters removed by Python `str.strip`. -/
def isPySpace (c : Char) : Bool :=
  c == ' ' || c == '\t' || c == '\n' || c == '\r' || c == Char.ofNat 11 || c == Char.ofNat 12

/-- Python `str.strip` on a character list. -/
def pyStripList (l : List Char) : List Char :=
  ((l.dropWhile isPySpace).reverse.dropWhile isPySpace).reverse

/-- Python `str.strip`. -/
def pyStrip (s : String) : String := String.mk (pyStripList s.toList)

/-- `needle` occurs at the start of `hay`. -/
def listPrefixOf : List Char → List Char → Bool
  | [], _ => true
  | _ :: _, [] => false
  | a :: as, b :: bs => a == b && listPrefixOf as bs

/-- Python substring test `needle in hay`. -/
def listInfixOf (needle hay : List Char) : Bool :=
  match hay with
  | [] => needle.isEmpty
  | _ :: t => listPrefixOf needle hay || listInfixOf needle t

/-- Python `str(x)` of an optional field, `str(None) = "None"`. -/
def pyStr (o : Option String) : String := o.getD "None"

/-! ## Association lists (Python `dict` with assignment / `pop` / `get`) -/

/-- `d.get(k)`. -/
def alookup {κ β : Type} [DecidableEq κ] (k : κ) : List (κ × β) → Option β
  | [] => none
  | p :: t => if p.1 = k then some p.2 else alookup k t

/-- `d[k] = v`. -/
def aset {κ β : Type} [DecidableEq κ] (k : κ) (v : β) : List (κ × β) → List (κ × β)
  | [] => [(k, v)]
  | p :: t => if p.1 = k then (k, v) :: t else p :: aset k v t

/-- `d.pop(k, None)`. -/
def aerase {κ β : Type} [DecidableEq κ] (k : κ) : List (κ × β) → List (κ × β)
  | [] => []
  | p :: t => if p.1 = k then t else p :: aerase k t

/-! ## Python stable sorting (`sorted`) -/

/-- One insertion step of a stable sort: `lt y x` means the already placed
element `y` must stay in front of the element `x` being inserted. -/
def insertOrd {α : Type} (lt : α → α → Bool) (x : α) : List α → List α
  | [] => [x]
  | y :: ys => if lt y x then y :: insertOrd lt x ys else x :: y :: ys

/-- Stable sort matching Python `sorted`: an earlier element stays in front of
a later one unless the later strictly precedes it. -/
def pySorted {α : Type} (lt : α → α → Bool) (l : List α) : List α :=
  l.foldr (insertOrd lt) []

/-- Python `sorted(kws, key=len, reverse=True)`: stable, by length descending. -/
def sortByLenDesc (l : List String) : List String :=
  pySorted (fun a b => decide (b.length < a.length)) l

/-! ## Configuration (`settings.toml` keys with their `.get` defaults) -/

structure Settings where
  welcomeDelaySeconds : ℚ := 60
  welcomeGapSeconds : ℚ := 1
  triggerCooldownSeconds : ℚ := 1
  privateForwardThenHintDelaySeconds : ℚ := 1
  groupForwardThenAtDelaySeconds : ℚ := 1
  superUserId : String := ""
  names : List String := []
  triggerGroups : List String := []
  triggerAllowNonlistedGroups : Bool := false
  triggerEnablePrivate : Bool := true
  welcomeEnabled : Bool := true
  welcomeGroups : List String := []
  logGroup : String := ""
  triggerEnabled : Bool := true
  testCommand : String := "Another Me，测试迎新"
  forwardSenderId : String := "2162317375"
deriving DecidableEq, Repr

/-! ## Content store snapshots (`Store.trig_singles` / `Store.trig_groups` /
`Store.welcome_plain` / `Store.welcome_packs`; the `Path` component, used only
for logging, is dropped) -/

/-- One root-level trigger file: `(triggers, order_key, body)`. -/
structure SingleEntry where
  triggers : List String
  orderKey : String
  body : String
deriving DecidableEq, Repr

/-- One trigger directory: `(triggers, dir_key, parts)` with
`parts = [(order_key, body)]`. -/
structure GroupEntry where
  triggers : List String
  dirKey : String
  parts : List (String × String)
deriving DecidableEq, Repr

/-- Welcome content: root-level messages `(order_key, body)` and forward packs
`(dir_key, [(order_key, body)])`. -/
structure WelcomeContent where
  plain : List (String × String) := []
  packs : List (String × List (String × String)) := []
deriving DecidableEq, Repr

/-! ## Keyword matching (`handle_custom_triggers`, lines 507-533) -/

/-- `kw_hit`: `bool(kw) and kw.lower() in src_lower`. -/
def kwHit (srcLower : List Char) (kw : String) : Bool :=
  kw ≠ "" && listInfixOf (lowerStr kw) srcLower

/-- The running best-match accumulator `(best, best_len, best_kw)`. -/
structure BestAcc (α : Type) where
  best : Option α
  bestLen : Nat
  bestKw : Option String
deriving DecidableEq

/-- One iteration of the best-match loop: scan the entry's keywords by length
descending and take the first hit strictly longer than the current best. -/
def bestStep {α : Type} (src : List Char) (trigsOf : α → List String)
    (acc : BestAcc α) (e : α) : BestAcc α :=
  match (sortByLenDesc (trigsOf e)).find?
      (fun kw => kwHit src kw && decide (acc.bestLen < kw.length)) with
  | some kw => ⟨some e, kw.length, some kw⟩
  | none => acc

/-- The `for trg_list, ... in STORE.trig_singles/_groups` loop. -/
def bestScan {α : Type} (src : List Char) (trigsOf : α → List String)
    (entries : List α) : BestAcc α :=
  entries.foldl (bestStep src trigsOf) ⟨none, 0, none⟩

/-- Outcome of keyword resolution. -/
inductive Resolution where
  | noHit
  | groupWin (e : GroupEntry) (kw : String)
  | singleWin (e : SingleEntry) (kw : String)
deriving DecidableEq, Repr

/-- Lines 511-547: run both best-match loops, then prefer the grouped entry
when `best_len_g >= best_len_s`; an impossible arm (a scan that reports a best
entry without a keyword) falls back to no reply, matching the Python
fall-through. -/
def resolveTrigger (singles : List SingleEntry) (groups : List GroupEntry)
    (srcLower : List Char) : Resolution :=
  let s := bestScan srcLower SingleEntry.triggers singles
  let g := bestScan srcLower GroupEntry.triggers groups
  if s.best.isNone && g.best.isNone then .noHit
  else if g.best.isSome && decide (s.bestLen ≤ g.bestLen) then
    match g.best, g.bestKw with
    | some e, some kw => .groupWin e kw
    | _, _ => .noHit
  else
    match s.best, s.bestKw with
    | some e, some kw => .singleWin e kw
    | _, _ => .noHit

/-! ## Events and message segments (OneBot11) -/

/-- One OneBot11 message segment, as inspected by the bot. -/
inductive Seg where
  | text (s : String)
  | atSeg (qq : String)
  | replySeg (id : String)
  | otherSeg
deriving DecidableEq, Repr

/-- An inbound event record; `none` fields model missing JSON keys, and
`message = none` models a `message` field that is not a segment list. -/
structure Event where
  postType : Option String := none
  noticeType : Option String := none
  messageType : Option String := none
  groupId : Option String := none
  userId : Option String := none
  rawMessage : Option String := none
  selfId : Option String := none
  senderRole : Option String := none
  message : Option (List Seg) := none
deriving DecidableEq, Repr

/-- `extract_at_info_and_text`: whether the bot is @-mentioned anywhere, and
the concatenation of all text segments, stripped. -/
def extractAtInfoAndText (e : Event) (selfId : Option String) : Bool × String :=
  match e.message with
  | none => (false, "")
  | some msg =>
    let hasAtMe := msg.any (fun seg =>
      match seg with
      | .atSeg qq => qq == pyStr selfId
      | _ => false)
    let textAll := String.join (msg.filterMap (fun seg =>
      match seg with
      | .text s => some s
      | _ => none))
    (hasAtMe, pyStrip textAll)

/-- `has_reply_segment` (used only for logging). -/
def hasReplySegment (e : Event) : Bool :=
  match e.message with
  | none => false
  | some msg => msg.any (fun seg =>
      match seg with
      | .replySeg _ => true
      | _ => false)

/-- `collect_other_ats`: every @-ed user except `@all` and the bot itself,
first-appearance order, de-duplicated. -/
def collectOtherAts (e : Option Event) (selfId : Option String) : List String :=
  match e with
  | none => []
  | some ev =>
    match ev.message with
    | none => []
    | some msg =>
      (msg.foldl (fun (acc : List String) seg =>
        match seg with
        | .atSeg qq0 =>
          let qq := pyStrip qq0
          if qq = "" || String.mk (lowerStr qq) = "all" then acc
          else if (match selfId with
                   | some s => qq == s
                   | none => false) then acc
          else if qq ∈ acc then acc else acc ++ [qq]
        | _ => acc) [])

/-- `contains_any_name`: case-insensitive substring match of any call-name. -/
def containsAnyName (text : String) (names : List String) : Bool :=
  if text = "" || names.isEmpty then false
  else names.any (fun nm => nm ≠ "" && listInfixOf (lowerStr nm) (lowerStr text))

/-! ## Durable toggle state (`TRIG_STATE`) and its runtime shape -/

/-- The well-formed in-memory `TRIG_STATE` used by the trigger logic. -/
structure TrigState where
  dmBlocked : List String := []
  groupEnabled : List String := []
deriving DecidableEq, Repr

/-! ## Effects: the externally visible actions of one handler run -/

/-- One observable action performed by a handler, in program order. -/
inductive Eff where
  | sleep (seconds : ℚ)
  | sendGroup (groupId : String) (text : String)
  | sendPrivate (userId : String) (text : String)
  | sendForward (groupId : String) (texts : List String) (sender : String)
  | sendPrivateForward (userId : String) (texts : List String) (sender : String)
  | sendSegments (groupId : String) (replyTo : Option String) (text : String)
      (ats : List String)
  | saveState (st : TrigState)
deriving DecidableEq, Repr

/-! ## Trigger permission gates -/

/-- `is_group_trigger_allowed`. -/
def isGroupTriggerAllowed (cfg : Settings) (ts : TrigState) (groupId : String) : Bool :=
  if groupId ∈ cfg.triggerGroups then true
  else if cfg.triggerAllowNonlistedGroups then groupId ∈ ts.groupEnabled
  else false

/-- `is_private_trigger_allowed`. -/
def isPrivateTriggerAllowed (cfg : Settings) (ts : TrigState) (userId : String) : Bool :=
  if ¬ cfg.triggerEnablePrivate then false
  else ¬ (userId ∈ ts.dmBlocked)

/-! ## The trigger engine (`handle_custom_triggers`) -/

/-- The per-(group, user) cooldown map `触发冷却记录`. -/
abbrev CdMap : Type := List ((String × String) × ℚ)

/-- Body sorted by `order_key` and filtered to non-empty, as in
`[b for _, b, _ in sorted(parts, key=lambda x: x[0]) if b]`. -/
def sortedBodies (parts : List (String × String)) : List String :=
  (pySorted (fun a b => decide (a.1 < b.1)) parts).filterMap
    (fun p => if p.2 ≠ "" then some p.2 else none)

/-- `STORE.self_id or fallback` with Python truthiness. -/
def selfIdOr (selfId : Option String) (fallback : String) : String :=
  match selfId with
  | some s => if s = "" then fallback else s
  | none => fallback

/-- Delivery of a grouped (forwarded) reply, lines 548-590.  `fwdId` is the
message id the gateway returns for the forward send. -/
def deliverGroupWin (cfg : Settings) (selfId : Option String) (e : GroupEntry)
    (gid uid : String) (ev : Option Event) (isPrivate : Bool)
    (fwdId : Option String) : List Eff :=
  let texts := sortedBodies e.parts
  if texts.isEmpty then []
  else if isPrivate then
    [Eff.sendPrivateForward uid texts (selfIdOr selfId cfg.forwardSenderId),
     Eff.sleep cfg.privateForwardThenHintDelaySeconds,
     Eff.sendPrivate uid "请阅读该聊天记录内的内容"]
  else
    let orderQqs := collectOtherAts ev selfId
    [Eff.sendForward gid texts (selfIdOr selfId cfg.forwardSenderId),
     Eff.sleep cfg.groupForwardThenAtDelaySeconds,
     Eff.sendSegments gid fwdId "请阅读该聊天记录内的内容" orderQqs]

/-- Delivery of a single reply, lines 593-601. -/
def deliverSingleWin (e : SingleEntry) (gid uid : String) (isPrivate : Bool) : List Eff :=
  if isPrivate then [Eff.sendPrivate uid e.body] else [Eff.sendGroup gid e.body]

/-- `handle_custom_triggers`: entry gate (@bot or call-name), cooldown for
non-super users, keyword resolution, delivery.  Returns the updated cooldown
map and the effects, in program order. -/
def atInfoOf (ev : Option Event) (selfId : Option String) : Bool × String :=
  match ev with
  | some e => extractAtInfoAndText e selfId
  | none => (false, "")

/-- `src_text = (text_only or raw_msg).strip()` with `raw_msg = message.strip()`. -/
def srcTextOf (message : String) (ev : Option Event) (selfId : Option String) : String :=
  let rawMsg := pyStrip message
  let textOnly := (atInfoOf ev selfId).2
  pyStrip (if textOnly ≠ "" then textOnly else rawMsg)

/-- The entry gate of `handle_custom_triggers`: the bot is @-mentioned or a
configured call-name occurs in the text. -/
def triggerEligible (cfg : Settings) (selfId : Option String) (message : String)
    (ev : Option Event) : Bool :=
  (atInfoOf ev selfId).1 || containsAnyName (srcTextOf message ev selfId) cfg.names

def handleCustomTriggers (cfg : Settings) (selfId : Option String)
    (singles : List SingleEntry) (groups : List GroupEntry)
    (cds : CdMap) (gid uid : String) (message : String)
    (ev : Option Event) (now : ℚ) (fwdId : Option String) : CdMap × List Eff :=
  let srcLower := lowerStr (srcTextOf message ev selfId)
  if ¬ triggerEligible cfg selfId message ev then (cds, [])
  else
    let gate : Option CdMap :=
      if uid ≠ cfg.superUserId then
        let last := (alookup (gid, uid) cds).getD 0
        if now - last < cfg.triggerCooldownSeconds then none
        else some (aset (gid, uid) now cds)
      else some cds
    match gate with
    | none => (cds, [])
    | some cds1 =>
      let isPrivate := ev.isSome && (ev.bind Event.messageType == some "private")
      match resolveTrigger singles groups srcLower with
      | .noHit => (cds1, [])
      | .groupWin e _ => (cds1, deliverGroupWin cfg selfId e gid uid ev isPrivate fwdId)
      | .singleWin e _ => (cds1, deliverSingleWin e gid uid isPrivate)

/-! ## Switch command (`_build_switch_regex`, `maybe_handle_trigger_switch`) -/

/-- `([开关])` tail of the switch pattern: optional whitespace, `开` or `关`,
optional trailing whitespace.  `some true` means `开` (on). -/
def matchTail (cs : List Char) : Option Bool :=
  match cs.dropWhile isPySpace with
  | [] => none
  | c :: rest =>
    if (c == '开' || c == '关') && (rest.dropWhile isPySpace).isEmpty
    then some (c == '开') else none

/-- One alternative of the switch regex: the (case-insensitively matched)
name, then the literal `回应`, then the tail. -/
def tryNameMatch (t : List Char) (n : String) : Option Bool :=
  let nl := lowerStr n
  if listPrefixOf nl (t.map Char.toLower) then
    match t.drop nl.length with
    | '回' :: '应' :: rest => matchTail rest
    | _ => none
  else none

/-- `_build_switch_regex` + `rx.fullmatch(text)`: `none` when the names list
is empty (no pattern can be built); otherwise the alternation of the
non-empty names (an empty alternation matches the empty name), tried in
order. -/
def matchSwitch (names : List String) (text : List Char) : Option Bool :=
  if names.isEmpty then none
  else
    let fs := names.filter (fun n => n ≠ "")
    let alts := if fs.isEmpty then [""] else fs
    (alts.filterMap (tryNameMatch (text.dropWhile isPySpace))).head?

/-- The text the switch handler matches against:
`(text_only or event.get("raw_message") or "").strip()`. -/
def switchTextOf (e : Event) (selfId : Option String) : String :=
  let textOnly := (extractAtInfoAndText e selfId).2
  pyStrip (if textOnly ≠ "" then textOnly else (e.rawMessage.getD ""))

/-- `maybe_handle_trigger_switch`: returns (handled, new `TRIG_STATE`,
effects).  `ev = none` models `event` not being a dict. -/
def maybeHandleTriggerSwitch (cfg : Settings) (selfId : Option String)
    (ts : TrigState) (ev : Option Event) : Bool × TrigState × List Eff :=
  match ev with
  | none => (false, ts, [])
  | some e =>
    if e.postType ≠ some "message" then (false, ts, [])
    else
      let msgType := e.messageType
      let userId := pyStr e.userId
      let text := switchTextOf e selfId
      if text = "" then (false, ts, [])
      else
        match matchSwitch cfg.names text.toList with
        | none => (false, ts, [])
        | some turnOn =>
          if msgType = some "private" then
            if ¬ turnOn then
              if userId ∈ ts.dmBlocked then
                (true, ts, [Eff.sendPrivate userId "已为该私聊关闭触发（回复“名字回应开”可重新开启）。"])
              else
                let ts1 : TrigState := { ts with dmBlocked := ts.dmBlocked ++ [userId] }
                (true, ts1, [Eff.saveState ts1,
                  Eff.sendPrivate userId "已为该私聊关闭触发（回复“名字回应开”可重新开启）。"])
            else
              if userId ∈ ts.dmBlocked then
                let ts1 : TrigState := { ts with dmBlocked := ts.dmBlocked.erase userId }
                (true, ts1, [Eff.saveState ts1, Eff.sendPrivate userId "已为该私聊开启触发。"])
              else
                (true, ts, [Eff.sendPrivate userId "已为该私聊开启触发。"])
          else if msgType = some "group" && pyStr e.groupId ≠ "" then
            let groupId := pyStr e.groupId
            let role := (e.senderRole).getD ""
            let isAdmin := role = "owner" ∨ role = "admin" ∨
              (cfg.superUserId ≠ "" ∧ userId = cfg.superUserId)
            if ¬ isAdmin then
              (true, ts, [Eff.sendGroup groupId "只有群主/管理员或超管可以使用该命令。"])
            else if ¬ turnOn then
              if groupId ∈ cfg.triggerGroups then
                (true, ts, [Eff.sendGroup groupId "本群为配置白名单，禁止关闭触发。"])
              else if groupId ∈ ts.groupEnabled then
                let ts1 : TrigState := { ts with groupEnabled := ts.groupEnabled.erase groupId }
                (true, ts1, [Eff.saveState ts1, Eff.sendGroup groupId "已关闭本群的触发。"])
              else
                (true, ts, [Eff.sendGroup groupId "已关闭本群的触发。"])
            else
              if groupId ∉ cfg.triggerGroups ∧ ¬ cfg.triggerAllowNonlistedGroups then
                (true, ts, [Eff.sendGroup groupId "当前未启用“非白名单群可触发”，请先在配置中开启。"])
              else if groupId ∉ cfg.triggerGroups ∧ groupId ∉ ts.groupEnabled then
                let ts1 : TrigState := { ts with groupEnabled := ts.groupEnabled ++ [groupId] }
                (true, ts1, [Eff.saveState ts1, Eff.sendGroup groupId "已开启本群的触发。"])
              else
                (true, ts, [Eff.sendGroup groupId "已开启本群的触发。"])
          else (false, ts, [])

/-! ## Toggle-state persistence (`_state_load` / `_state_save`) -/

/-- A field value read from the state file: a list of strings, or some other
JSON value (kept opaque). -/
inductive JField where
  | strs (l : List String)
  | badval
deriving DecidableEq, Repr

/-- A parsed JSON document for the state file: a dict with the two optional
fields (other keys are irrelevant to the program), or any non-dict value. -/
inductive JVal where
  | jdict (dmBlocked : Option JField) (groupEnabled : Option JField)
  | jnondict
deriving DecidableEq, Repr

/-- Result of `json.loads` on the file text. -/
inductive ParseResult where
  | raiseErr
  | val (v : JVal)
deriving DecidableEq, Repr

/-- The module-level initial `TRIG_STATE`. -/
def defaultTrigState : JVal := JVal.jdict (some (.strs [])) (some (.strs []))

/-- `_state_load`: returns the resulting in-memory `TRIG_STATE` and, when
`_state_save` ran, the value written to the file.  `prev` is the value of the
global before the call (the module default at process start).  A dict gets
missing fields defaulted; a non-dict is assigned first, so the `setdefault`
failure is caught only after the global has been overwritten, and the
malformed value is then saved back. -/
def stateLoad (fileExists : Bool) (content : ParseResult) (prev : JVal) :
    JVal × Option JVal :=
  if fileExists then
    match content with
    | .raiseErr => (prev, some prev)
    | .val (JVal.jdict dm ge) =>
      (JVal.jdict (some (dm.getD (.strs []))) (some (ge.getD (.strs []))), none)
    | .val JVal.jnondict => (JVal.jnondict, some JVal.jnondict)
  else (prev, some prev)

/-- Whether a loaded state has both fields present (what the trigger logic
needs in order to run without raising). -/
def hasBothFields : JVal → Bool
  | JVal.jdict (some _) (some _) => true
  | _ => false

/-- Serialization of the runtime `TrigState` as a state-file document. -/
def trigStateToJVal (ts : TrigState) : JVal :=
  JVal.jdict (some (.strs ts.dmBlocked)) (some (.strs ts.groupEnabled))

/-! ## Welcome scheduler (`handle_new_member` / `schedule_welcome`)

Timers are `asyncio` tasks; we give each created task a fresh numeric id and
record cancelled ids.  A cancelled task's sleep raises `CancelledError`, so
its body never runs. -/

/-- The welcome-flow globals: `新人记录` (pending arrivals per group),
`定时器任务` (the live timer task per group), plus task bookkeeping. -/
structure WState where
  records : List (String × List String) := []
  timers : List (String × Nat) := []
  cancelled : List Nat := []
  nextId : Nat := 0
deriving DecidableEq, Repr

/-- `handle_new_member`: log, append the user if absent, cancel any existing
timer, create a fresh timer task.  Returns the new state, the created timer
id, and the effects (the two log sends). -/
def handleNewMember (cfg : Settings) (nowMs : Nat) (s : WState) (g u : String) :
    WState × Nat × List Eff :=
  let rec0 := (alookup g s.records).getD []
  let rec1 := if u ∈ rec0 then rec0 else rec0 ++ [u]
  let cancelled1 := match alookup g s.timers with
                    | some t => t :: s.cancelled
                    | none => s.cancelled
  let tid := s.nextId
  ({ records := aset g rec1 s.records
     timers := aset g tid s.timers
     cancelled := cancelled1
     nextId := s.nextId + 1 }, tid,
   [Eff.sendGroup cfg.logGroup
      ("【日志】用户 " ++ u ++ " 加入群 " ++ g ++ "，时间戳：" ++ toString nowMs),
    Eff.sendGroup cfg.logGroup ("【日志】定时器重置：" ++ g)])

/-- Python `sep.join(parts)`. -/
def pyJoin (sep : String) : List String → String
  | [] => ""
  | [x] => x
  | x :: y :: xs => x ++ sep ++ pyJoin sep (y :: xs)

/-- The `@` line sent at the end of the greeting:
`" ".join([f"[CQ:at,qq={qq}]" for qq in 新人列表])`. -/
def atText (users : List String) : String :=
  pyJoin " " (users.map (fun qq => "[CQ:at,qq=" ++ qq ++ "]"))

/-- The greeting send sequence for a non-empty pending list `lst`: the start
log, the root-level messages (sorted by key, empty bodies skipped, `gap`
pause after each), the forward packs (sorted, empty packs skipped, `gap`
pause after each), then the mention line. -/
def greetingEffs (cfg : Settings) (content : WelcomeContent)
    (selfId : Option String) (g : String) (lst : List String) : List Eff :=
  let gap := cfg.welcomeGapSeconds
  let plainEffs := (pySorted (fun a b => decide (a.1 < b.1)) content.plain).foldr
    (fun p acc => if p.2 ≠ "" then Eff.sendGroup g p.2 :: Eff.sleep gap :: acc else acc) []
  let packEffs := (pySorted (fun a b => decide (a.1 < b.1)) content.packs).foldr
    (fun p acc =>
      let texts := sortedBodies p.2
      if texts.isEmpty then acc
      else Eff.sendForward g texts (selfIdOr selfId cfg.forwardSenderId)
             :: Eff.sleep gap :: acc) []
  let atLine := atText lst
  Eff.sendGroup cfg.logGroup ("【日志】开始发送欢迎消息：" ++ g)
    :: plainEffs ++ packEffs ++ (if atLine ≠ "" then [Eff.sendGroup g atLine] else [])

/-- The body of `schedule_welcome` after the sleep: read the pending list;
if empty, log the failure and keep the maps; otherwise send the greeting and
pop both the pending entry and the timer entry. -/
def scheduleWelcomeBody (cfg : Settings) (content : WelcomeContent)
    (selfId : Option String) (s : WState) (g : String) : WState × List Eff :=
  let lst := (alookup g s.records).getD []
  if lst.isEmpty then
    (s, [Eff.sendGroup cfg.logGroup ("【日志】触发失败：新人列表为空，群号：" ++ g)])
  else
    ({ s with records := aerase g s.records, timers := aerase g s.timers },
     greetingEffs cfg content selfId g lst)

/-- A `schedule_welcome` task run: a cancelled task's sleep raises
`CancelledError` and the task returns with no effect; otherwise the task
sleeps the configured delay and runs the body. -/
def scheduleWelcomeRun (cfg : Settings) (content : WelcomeContent)
    (selfId : Option String) (s : WState) (g : String) (tid : Nat) :
    WState × List Eff :=
  if tid ∈ s.cancelled then (s, [])
  else
    let r := scheduleWelcomeBody cfg content selfId s g
    (r.1, Eff.sleep cfg.welcomeDelaySeconds :: r.2)

/-- A sequence of join events for one group, handled back to back (each
arrival within the delay window, so each cancels the previous timer before it
fires).  Returns the created timer ids in creation order. -/
def processJoins (cfg : Settings) (nowMs : Nat) (g : String) :
    List String → WState → WState × List Nat
  | [], s => (s, [])
  | u :: rest, s =>
    let h := handleNewMember cfg nowMs s g u
    let r := processJoins cfg nowMs g rest h.1
    (r.1, h.2.1 :: r.2)

/-- Run every created timer task to completion, in creation order, collecting
the effects. -/
def fireTimers (cfg : Settings) (content : WelcomeContent) (selfId : Option String)
    (g : String) : List Nat → WState → WState × List Eff
  | [], s => (s, [])
  | t :: rest, s =>
    let r1 := scheduleWelcomeRun cfg content selfId s g t
    let r2 := fireTimers cfg content selfId g rest r1.1
    (r2.1, r1.2 ++ r2.2)

/-- First-occurrence de-duplication, the shape `新人记录[g]` takes after a
sequence of `handle_new_member` appends. -/
def dedupFirst (us : List String) : List String :=
  us.foldl (fun acc u => if u ∈ acc then acc else acc ++ [u]) []

/-! ## Correlation channel (`send_action`) -/

/-- How one `send_action` call ends: the `ws.send` raises, or the wait on the
future succeeds / times out / is cancelled. -/
inductive CallOutcome where
  | sendFail
  | respond (resp : Nat)
  | timeout
  | cancelled
deriving DecidableEq, Repr

/-- The caller-visible result of `send_action`. -/
inductive CallResult where
  | success (resp : Nat)
  | transportError
  | timeoutErr
  | cancelledErr
deriving DecidableEq, Repr

/-- `send_action`: register the waiter under the fresh echo, send the payload
(outside the `try`), then wait inside `try ... finally PENDING_ACTIONS.pop`.
Returns the result and the final `PENDING_ACTIONS` key set. -/
def sendAction (pending : List String) (echo : String) (oc : CallOutcome) :
    CallResult × List String :=
  let p1 := echo :: pending
  match oc with
  | .sendFail => (.transportError, p1)
  | .respond r => (.success r, p1.erase echo)
  | .timeout => (.timeoutErr, p1.erase echo)
  | .cancelled => (.cancelledErr, p1.erase echo)

/-- Many consecutive calls, each with its own echo and outcome. -/
def sendActionMany (pending : List String) : List (String × CallOutcome) → List String
  | [] => pending
  | c :: rest => sendActionMany (sendAction pending c.1 c.2).2 rest

/-! ## Frame router (`ws_reader`) -/

/-- A parsed inbound frame as the router inspects it: whether it is a dict,
its `echo` and `status` fields (`""` = missing/falsy), and an identifying
payload tag. -/
structure PFrame where
  isDict : Bool := true
  echo : String := ""
  status : String := ""
  tag : Nat := 0
deriving DecidableEq, Repr

/-- A raw frame: either malformed (json.loads raises) or parsed. -/
inductive Frame where
  | malformed
  | okFrame (v : PFrame)
deriving DecidableEq, Repr

/-- `isinstance(data, dict) and data.get("echo") and data.get("status")`. -/
def isActionResp (v : PFrame) : Bool := v.isDict && v.echo ≠ "" && v.status ≠ ""

/-- The router-visible state: the pending waiters (`none` = future not yet
done) and the event queue contents. -/
structure RouterSt where
  waiters : List (String × Option PFrame) := []
  events : List PFrame := []
deriving DecidableEq, Repr

/-- `fut = PENDING_ACTIONS.get(echo); if fut and not fut.done():
fut.set_result(data)`. -/
def deliverResp (ws : List (String × Option PFrame)) (e : String) (v : PFrame) :
    List (String × Option PFrame) :=
  ws.map (fun p => if p.1 = e ∧ p.2 = none then (p.1, some v) else p)

/-- One iteration of the `ws_reader` loop. -/
def routeFrame (st : RouterSt) (f : Frame) : RouterSt :=
  match f with
  | .malformed => st
  | .okFrame v =>
    if isActionResp v then { st with waiters := deliverResp st.waiters v.echo v }
    else { st with events := st.events ++ [v] }

/-- Which frames the router turns into queued events. -/
def eventOf : Frame → Option PFrame
  | .malformed => none
  | .okFrame v => if isActionResp v then none else some v

/-! ## Dispatcher (`main`, lines 740-807) -/

/-- The agent's mutable state as seen by the dispatcher loop. -/
structure AgentState where
  selfId : Option String := none
  w : WState := {}
  cds : CdMap := []
  trig : TrigState := {}
deriving DecidableEq, Repr

/-- Per-event runtime context: the wall clock at handling time and the
forward-send message id the gateway would return. -/
structure EvCtx where
  ev : Event
  now : ℚ := 0
  nowMs : Nat := 0
  fwdId : Option String := none
deriving DecidableEq, Repr

/-- The body of the dispatcher loop for one event (the code inside the inner
`try`).  `Except.error` models an exception escaping the per-event handling
(e.g. `event["group_id"]` raising `KeyError`). -/
def dispatchEvent (cfg : Settings) (content : WelcomeContent)
    (singles : List SingleEntry) (groups : List GroupEntry)
    (st : AgentState) (c : EvCtx) : Except String (AgentState × List Eff) :=
  let e := c.ev
  -- 记录 self_id（仅首次）; `if sid:` is Python truthiness
  let st := if st.selfId = none then
              match e.selfId with
              | some sid => if sid ≠ "" then { st with selfId := some sid } else st
              | none => st
            else st
  if e.postType = some "notice" ∧ e.noticeType = some "group_increase" then
    match e.groupId, e.userId with
    | some g, some u =>
      if cfg.welcomeEnabled && g ∈ cfg.welcomeGroups then
        let r := handleNewMember cfg c.nowMs st.w g u
        .ok ({ st with w := r.1 }, r.2.2)
      else .ok (st, [])
    | _, _ => .error "KeyError"
  else if e.postType = some "message" ∧ e.messageType = some "group" then
    match e.groupId, e.userId with
    | some g, some u =>
      let raw := e.rawMessage.getD ""
      if cfg.welcomeEnabled && g ∈ cfg.welcomeGroups && u = cfg.superUserId
          && pyStrip raw = cfg.testCommand then
        -- 手动触发迎新: replace the pending list, cancel and drop any timer,
        -- then await schedule_welcome directly
        let w1 := { st.w with records := aset g [u] st.w.records }
        let w2 := match alookup g w1.timers with
                  | some t => { w1 with cancelled := t :: w1.cancelled,
                                        timers := aerase g w1.timers }
                  | none => w1
        let body := scheduleWelcomeBody cfg content st.selfId w2 g
        .ok ({ st with w := body.1 },
          Eff.sendGroup cfg.logGroup ("【日志】收到测试迎新指令，立即执行：" ++ g)
            :: Eff.sleep cfg.welcomeDelaySeconds :: body.2)
      else
        let sw := maybeHandleTriggerSwitch cfg st.selfId st.trig (some e)
        if sw.1 then .ok ({ st with trig := sw.2.1 }, sw.2.2)
        else if cfg.triggerEnabled && isGroupTriggerAllowed cfg st.trig g then
          let r := handleCustomTriggers cfg st.selfId singles groups st.cds g u raw
                     (some e) c.now c.fwdId
          .ok ({ st with cds := r.1 }, r.2)
        else .ok (st, [])
    | _, _ => .error "KeyError"
  else if e.postType = some "message" ∧ e.messageType = some "private" then
    match e.userId with
    | some u =>
      let raw := e.rawMessage.getD ""
      let sw := maybeHandleTriggerSwitch cfg st.selfId st.trig (some e)
      if sw.1 then .ok ({ st with trig := sw.2.1 }, sw.2.2)
      else if cfg.triggerEnabled && isPrivateTriggerAllowed cfg st.trig u then
        let r := handleCustomTriggers cfg st.selfId singles groups st.cds u u raw
                   (some e) c.now c.fwdId
        .ok ({ st with cds := r.1 }, r.2)
      else .ok (st, [])
    | none => .error "KeyError"
  else .ok (st, [])

/-- One iteration of the dispatcher loop: the `try/except` around the event
body catches any exception, logs it, and keeps the previous state. -/
def dispatchStep (cfg : Settings) (content : WelcomeContent)
    (singles : List SingleEntry) (groups : List GroupEntry)
    (st : AgentState) (c : EvCtx) : AgentState :=
  match dispatchEvent cfg content singles groups st c with
  | .ok r => r.1
  | .error _ => st

/-- The dispatcher loop over a finite queue of events. -/
def dispatchAll (cfg : Settings) (content : WelcomeContent)
    (singles : List SingleEntry) (groups : List GroupEntry)
    (cs : List EvCtx) (st : AgentState) : AgentState :=
  cs.foldl (dispatchStep cfg content singles groups) st

/-- Whether the per-event handling raised. -/
def isErr {ε α : Type} : Except ε α → Bool
  | .error _ => true
  | .ok _ => false

/-! ## Measures used to specify keyword resolution -/

/-- The length of the longest keyword in `kws` that hits `src` (0 when none
hits; a hit is never empty, so a hit forces a positive value). -/
def maxHitLen (src : List Char) (kws : List String) : Nat :=
  kws.foldr (fun kw m => if kwHit src kw then max kw.length m else m) 0

/-- The longest hit length over a whole category of entries. -/
def catMax {α : Type} (src : List Char) (trigsOf : α → List String)
    (entries : List α) : Nat :=
  entries.foldr (fun e m => max (maxHitLen src (trigsOf e)) m) 0

/-! ## Concrete fixtures for closed example theorems -/

/-- A configuration with a 10-second trigger cooldown. -/
def cfgCd : Settings := { triggerCooldownSeconds := 10 }

/-- A group message that @-mentions the bot and contains the keyword `帮助`. -/
def evHelp : Event :=
  { postType := some "message", messageType := some "group",
    groupId := some "G", userId := some "U",
    message := some [Seg.atSeg "BOT", Seg.text "帮助"] }

/-- A single trigger entry for the keyword `帮助`. -/
def singlesHelp : List SingleEntry :=
  [{ triggers := ["帮助"], orderKey := "0", body := "这是帮助" }]

/-! # Basic lemmas on the association-list dictionary model -/

theorem alookup_aset_self {κ β : Type} [DecidableEq κ] (k : κ) (v : β) (l : List (κ × β)) :
    alookup k (aset k v l) = some v := by
  induction l with
  | nil => simp [aset, alookup]
  | cons p t ih =>
    by_cases h : p.1 = k
    · simp [aset, h, alookup]
    · simp [aset, h, alookup, ih]

theorem alookup_eq_none_iff {κ β : Type} [DecidableEq κ] (k : κ) (l : List (κ × β)) :
    alookup k l = none ↔ ∀ p ∈ l, p.1 ≠ k := by
  induction l with
  | nil => simp [alookup]
  | cons p t ih =>
    by_cases h : p.1 = k
    · simp [alookup, h]
    · simp [alookup, h, ih]

theorem aset_of_not_mem {κ β : Type} [DecidableEq κ] (k : κ) (v : β) (l : List (κ × β))
    (h : alookup k l = none) : aset k v l = l ++ [(k, v)] := by
  induction l with
  | nil => simp [aset]
  | cons p t ih =>
    rw [alookup_eq_none_iff] at h
    have hp : p.1 ≠ k := h p (by simp)
    have ht : alookup k t = none := by
      rw [alookup_eq_none_iff]; exact fun q hq => h q (by simp [hq])
    simp [aset, hp, ih ht]

theorem alookup_append_single {κ β : Type} [DecidableEq κ] (k : κ) (v : β) (l : List (κ × β))
    (h : alookup k l = none) : alookup k (l ++ [(k, v)]) = some v := by
  induction l with
  | nil => simp [alookup]
  | cons p t ih =>
    rw [alookup_eq_none_iff] at h
    have hp : p.1 ≠ k := h p (by simp)
    have ht : alookup k t = none := by
      rw [alookup_eq_none_iff]; exact fun q hq => h q (by simp [hq])
    simp [alookup, hp, ih ht]

theorem alookup_append_single_ne {κ β : Type} [DecidableEq κ] (j k : κ) (v : β) (l : List (κ × β))
    (h : k ≠ j) : alookup j (l ++ [(k, v)]) = alookup j l := by
  induction l with
  | nil => simp [alookup, h]
  | cons p t ih =>
    by_cases hp : p.1 = j
    · simp [alookup, hp]
    · simp [alookup, hp, ih]

theorem aerase_append_single {κ β : Type} [DecidableEq κ] (k : κ) (v : β) (l : List (κ × β))
    (h : alookup k l = none) : aerase k (l ++ [(k, v)]) = l := by
  induction l with
  | nil => simp [aerase]
  | cons p t ih =>
    rw [alookup_eq_none_iff] at h
    have hp : p.1 ≠ k := h p (by simp)
    have ht : alookup k t = none := by
      rw [alookup_eq_none_iff]; exact fun q hq => h q (by simp [hq])
    simp [aerase, hp, ih ht]

/-! # Claim C5: correlation-call waiter cleanup (`send_action`) -/

/-- C5 counterexample: when the underlying `ws.send` raises, the exception
occurs before the `try/finally`, so the waiter registered under the echo is
NOT removed from `PENDING_ACTIONS` — contradicting "on every exit path
(success, timeout, cancellation, send failure) the waiter ... is removed". -/
theorem c5_counterexample_send_failure_leaks_waiter :
    (sendAction [] "act:send_group_msg" CallOutcome.sendFail).1 = CallResult.transportError
      ∧ "act:send_group_msg" ∈ (sendAction [] "act:send_group_msg" CallOutcome.sendFail).2 := by
  constructor
  · rfl
  · simp [sendAction]

/-- C5 (amended): a `send_action` whose send succeeded fails with `Timeout`
when no matching response arrives in time, and on the exit paths that reach
the `try` block (success, timeout, cancellation) the waiter is removed, so
repeated timed-out calls leave no residual entries; only a failure of the
send itself (which happens before the `try/finally`) leaves the entry
registered. -/
theorem c5_send_action_cleanup (pending : List String) (echo : String)
    (oc : CallOutcome) (calls : List (String × CallOutcome))
    (_hfresh : echo ∉ pending) (hsend : oc ≠ CallOutcome.sendFail)
    (hcalls : ∀ p ∈ calls, p.1 ∉ pending ∧ p.2 = CallOutcome.timeout) :
    (sendAction pending echo oc).2 = pending
      ∧ (oc = CallOutcome.timeout → (sendAction pending echo oc).1 = CallResult.timeoutErr)
      ∧ sendActionMany pending calls = pending := by
  have herase : (echo :: pending).erase echo = pending := List.erase_cons_head echo pending
  refine ⟨?_, ?_, ?_⟩
  · cases oc with
    | sendFail => exact absurd rfl hsend
    | respond r => exact herase
    | timeout => exact herase
    | cancelled => exact herase
  · intro h; subst h; rfl
  · induction calls with
    | nil => rfl
    | cons c rest ih =>
      have hc := hcalls c (by simp)
      have hstep : (sendAction pending c.1 c.2).2 = pending := by
        rw [hc.2]
        exact List.erase_cons_head c.1 pending
      simp only [sendActionMany, hstep]
      exact ih (fun p hp => hcalls p (by simp [hp]))

/-- C5 witness: a concrete timed-out call followed by another timed-out call,
leaving the pending map empty. -/
theorem c5_witness :
    (sendAction [] "act:a" CallOutcome.timeout).2 = []
      ∧ (CallOutcome.timeout = CallOutcome.timeout →
          (sendAction [] "act:a" CallOutcome.timeout).1 = CallResult.timeoutErr)
      ∧ sendActionMany [] [("act:b", CallOutcome.timeout)] = [] :=
  c5_send_action_cleanup [] "act:a" CallOutcome.timeout [("act:b", CallOutcome.timeout)]
    (by simp) (by simp) (by simp)

/-! # Claim C8: toggle-state loading (`_state_load`) -/

/-- C8 counterexample: a state file that parses as a JSON non-dict (for
example the text `[]`) is "malformed", yet `_state_load` assigns it to
`TRIG_STATE` before `setdefault` raises, so the in-memory state is the
malformed value (and it is even written back) — not the empty two-field
state the claim requires. -/
theorem c8_counterexample_nondict_state :
    (stateLoad true (ParseResult.val JVal.jnondict) defaultTrigState).1 = JVal.jnondict
      ∧ hasBothFields (stateLoad true (ParseResult.val JVal.jnondict) defaultTrigState).1 = false
      ∧ (stateLoad true (ParseResult.val JVal.jnondict) defaultTrigState).1 ≠ defaultTrigState := by
  refine ⟨rfl, rfl, by decide⟩

/-- C8 (amended): at process start (previous in-memory state = the module
default), loading behaves as follows: an absent file or a file whose text
fails to parse leaves the empty default state and writes a fresh file; a file
parsing to a dict has its missing fields filled with empty lists (so the
state has both fields); but a file parsing to a non-dict value becomes the
in-memory state verbatim (the `setdefault` failure is caught only after the
global was overwritten) and that malformed value is written back. -/
theorem c8_state_load_cases (content : ParseResult) (dm ge : Option JField) :
    stateLoad false content defaultTrigState = (defaultTrigState, some defaultTrigState)
      ∧ stateLoad true ParseResult.raiseErr defaultTrigState
          = (defaultTrigState, some defaultTrigState)
      ∧ stateLoad true (ParseResult.val (JVal.jdict dm ge)) defaultTrigState
          = (JVal.jdict (some (dm.getD (JField.strs []))) (some (ge.getD (JField.strs []))), none)
      ∧ hasBothFields (stateLoad true (ParseResult.val (JVal.jdict dm ge)) defaultTrigState).1
          = true
      ∧ stateLoad true (ParseResult.val JVal.jnondict) defaultTrigState
          = (JVal.jnondict, some JVal.jnondict) := by
  refine ⟨rfl, rfl, rfl, rfl, rfl⟩

/-! # Claim C6: the frame router (`ws_reader`) -/

theorem routeFrame_events (st : RouterSt) (f : Frame) :
    (routeFrame st f).events = st.events ++ (eventOf f).toList := by
  cases f with
  | malformed => simp [routeFrame, eventOf]
  | okFrame v =>
    by_cases h : isActionResp v
    · simp [routeFrame, eventOf, h]
    · simp [routeFrame, eventOf, h]

theorem deliverResp_no_waiter (ws : List (String × Option PFrame)) (e : String)
    (v : PFrame) (h : alookup e ws = none) : deliverResp ws e v = ws := by
  induction ws with
  | nil => rfl
  | cons p t ih =>
    rw [alookup_eq_none_iff] at h
    have hp : p.1 ≠ e := h p (by simp)
    have ht : alookup e t = none := by
      rw [alookup_eq_none_iff]; exact fun q hq => h q (by simp [hq])
    simp [deliverResp, hp] at ih ⊢
    exact ih ht

theorem deliverResp_waiting (ws : List (String × Option PFrame)) (e : String)
    (v : PFrame) (h : alookup e ws = some none) :
    alookup e (deliverResp ws e v) = some (some v) := by
  induction ws with
  | nil => simp [alookup] at h
  | cons p t ih =>
    by_cases hp : p.1 = e
    · rw [alookup, if_pos hp] at h
      have hnone : p.2 = none := by injection h
      simp [deliverResp, hp, hnone, alookup]
    · rw [alookup, if_neg hp] at h
      simp only [deliverResp] at ih ⊢
      simp [hp, alookup, ih h]

/-- C6: for every inbound frame sequence, a malformed frame is dropped with
no state change; a parsed frame carrying both a truthy echo and a truthy
status touches only the waiter under its echo — a no-op when no waiter is
registered, and resolving the still-pending future when one is; every other
parsed frame is appended to the event queue, so the queue receives exactly
the non-response parsed frames in arrival order. -/
theorem c6_frame_router (st : RouterSt) (frames : List Frame) (v : PFrame) :
    (frames.foldl routeFrame st).events = st.events ++ frames.filterMap eventOf
      ∧ routeFrame st Frame.malformed = st
      ∧ (isActionResp v = true →
          (routeFrame st (Frame.okFrame v)).events = st.events
            ∧ (alookup v.echo st.waiters = none → routeFrame st (Frame.okFrame v) = st)
            ∧ (alookup v.echo st.waiters = some none →
                alookup v.echo (routeFrame st (Frame.okFrame v)).waiters = some (some v))) := by
  refine ⟨?_, rfl, ?_⟩
  · induction frames generalizing st with
    | nil => simp
    | cons f rest ih =>
      simp only [List.foldl_cons, List.filterMap_cons]
      rw [ih (routeFrame st f), routeFrame_events]
      cases eventOf f <;> simp
  · intro hresp
    refine ⟨by simp [routeFrame, hresp], ?_, ?_⟩
    · intro hnone
      have := deliverResp_no_waiter st.waiters v.echo v hnone
      simp [routeFrame, hresp, this]
    · intro hwait
      simp only [routeFrame, hresp, if_pos]
      simpa using deliverResp_waiting st.waiters v.echo v hwait

/-- C6 witness: a concrete run — a malformed frame, a response with a
registered waiter, a response with no waiter, and two events, enqueued in
order. -/
theorem c6_witness :
    (([Frame.malformed,
       Frame.okFrame { echo := "act:1", status := "ok", tag := 1 },
       Frame.okFrame { tag := 2 },
       Frame.okFrame { echo := "act:gone", status := "ok", tag := 3 },
       Frame.okFrame { tag := 4 }].foldl routeFrame
        { waiters := [("act:1", none)], events := [] }).events
      = [{ tag := 2 }, { tag := 4 }])
      ∧ (isActionResp { echo := "act:gone", status := "ok", tag := 3 } = true →
          (alookup "act:gone"
              ({ waiters := [("act:1", none)], events := [] } : RouterSt).waiters = none →
            routeFrame { waiters := [("act:1", none)], events := [] }
                (Frame.okFrame { echo := "act:gone", status := "ok", tag := 3 })
              = { waiters := [("act:1", none)], events := [] })) := by
  constructor
  · have h := (c6_frame_router { waiters := [("act:1", none)], events := [] }
      [Frame.malformed,
       Frame.okFrame { echo := "act:1", status := "ok", tag := 1 },
       Frame.okFrame { tag := 2 },
       Frame.okFrame { echo := "act:gone", status := "ok", tag := 3 },
       Frame.okFrame { tag := 4 }] { tag := 0 }).1
    rw [h]; rfl
  · intro h1
    exact (c6_frame_router { waiters := [("act:1", none)], events := [] } []
      { echo := "act:gone", status := "ok", tag := 3 }).2.2 h1 |>.2.1

/-! # Claim C7: the dispatcher loop survives per-event exceptions -/

/-- C7: an event whose handling raises leaves the agent state unchanged and
the loop proceeds to process the remaining queue — no exception raised
inside per-event handling terminates the dispatcher loop. -/
theorem c7_dispatcher_survives_exceptions (cfg : Settings) (content : WelcomeContent)
    (singles : List SingleEntry) (groups : List GroupEntry)
    (pre post : List EvCtx) (c : EvCtx) (s : AgentState)
    (h : isErr (dispatchEvent cfg content singles groups
          (dispatchAll cfg content singles groups pre s) c) = true) :
    dispatchAll cfg content singles groups (pre ++ c :: post) s
      = dispatchAll cfg content singles groups post
          (dispatchAll cfg content singles groups pre s) := by
  unfold dispatchAll at h ⊢
  rw [List.foldl_append, List.foldl_cons]
  congr 1
  rcases hE : dispatchEvent cfg content singles groups
      (List.foldl (dispatchStep cfg content singles groups) s pre) c with m | r
  · simp [dispatchStep, hE]
  · rw [hE] at h; exact absurd h (by simp [isErr])

/-- C7 witness: a `group_increase` notice with no `group_id` key raises
`KeyError`; the dispatcher state is unchanged and a following join event in a
welcome group is still handled (its timer id is allocated). -/
theorem c7_witness :
    isErr (dispatchEvent { welcomeGroups := ["G"] } {} [] []
        (dispatchAll { welcomeGroups := ["G"] } {} [] [] [] {})
        { ev := { postType := some "notice", noticeType := some "group_increase" } }) = true
      ∧ dispatchAll { welcomeGroups := ["G"] } {} [] []
          ([] ++ { ev := { postType := some "notice", noticeType := some "group_increase" } }
            :: [{ ev := { postType := some "notice", noticeType := some "group_increase",
                          groupId := some "G", userId := some "u1" } }]) {}
        = dispatchAll { welcomeGroups := ["G"] } {} [] []
            [{ ev := { postType := some "notice", noticeType := some "group_increase",
                       groupId := some "G", userId := some "u1" } }]
            (dispatchAll { welcomeGroups := ["G"] } {} [] [] [] {}) := by
  refine ⟨rfl, ?_⟩
  exact c7_dispatcher_survives_exceptions { welcomeGroups := ["G"] } {} [] [] []
    [{ ev := { postType := some "notice", noticeType := some "group_increase",
               groupId := some "G", userId := some "u1" } }]
    { ev := { postType := some "notice", noticeType := some "group_increase" } } {} rfl

/-! # Claim C10: behaviour with an empty call-name list -/

theorem containsAnyName_nil (text : String) : containsAnyName text [] = false := by
  simp [containsAnyName]

theorem matchSwitch_nil (text : List Char) : matchSwitch [] text = none := rfl

/-- C10: with an empty configured name list the switch pattern cannot be
built, so the switch handler never reports a command as handled and changes
nothing; and since name-substring matching can never succeed, a message
passes the trigger entry gate only via an explicit @-mention of the agent,
so without one the trigger engine does nothing. -/
theorem c10_empty_names (cfg : Settings) (hn : cfg.names = [])
    (selfId : Option String) (ts : TrigState) (ev : Option Event)
    (singles : List SingleEntry) (groups : List GroupEntry) (cds : CdMap)
    (gid uid msg : String) (now : ℚ) (fwdId : Option String) (text : String)
    (hAt : (atInfoOf ev selfId).1 = false) :
    maybeHandleTriggerSwitch cfg selfId ts ev = (false, ts, [])
      ∧ handleCustomTriggers cfg selfId singles groups cds gid uid msg ev now fwdId
          = (cds, [])
      ∧ containsAnyName text cfg.names = false := by
  refine ⟨?_, ?_, by rw [hn]; exact containsAnyName_nil text⟩
  · cases ev with
    | none => rfl
    | some e =>
      simp only [maybeHandleTriggerSwitch, hn, matchSwitch_nil, ite_self]
  · simp only [handleCustomTriggers, triggerEligible, hn, hAt, containsAnyName_nil]
    simp

/-- C10 witness: a concrete group message mentioning nothing, under an empty
name configuration. -/
theorem c10_witness :
    maybeHandleTriggerSwitch { names := [] } none {}
        (some { postType := some "message", messageType := some "group",
                groupId := some "G", userId := some "U",
                rawMessage := some "hello 1.4.6" })
      = (false, {}, [])
      ∧ handleCustomTriggers { names := [] } none
          [{ triggers := ["1.4.6"], orderKey := "0", body := "b" }] [] [] "G" "U"
          "hello 1.4.6"
          (some { postType := some "message", messageType := some "group",
                  groupId := some "G", userId := some "U",
                  rawMessage := some "hello 1.4.6" }) 100 none
        = ([], [])
      ∧ containsAnyName "hello 1.4.6" ({ names := [] } : Settings).names = false := by
  exact c10_empty_names { names := [] } rfl none {}
    (some { postType := some "message", messageType := some "group",
            groupId := some "G", userId := some "U",
            rawMessage := some "hello 1.4.6" })
    [{ triggers := ["1.4.6"], orderKey := "0", body := "b" }] [] [] "G" "U"
    "hello 1.4.6" 100 none "hello 1.4.6" rfl

/-! # Claim C3: the group switch command -/

/-- The elevated-role check of the group branch:
`role in {"owner","admin"} or (super_id and user_id == super_id)`. -/
def isAdminFor (cfg : Settings) (e : Event) : Prop :=
  (e.senderRole).getD "" = "owner" ∨ (e.senderRole).getD "" = "admin" ∨
    (cfg.superUserId ≠ "" ∧ pyStr e.userId = cfg.superUserId)

/-- C3: for a group message matching the switch pattern — a sender who is
neither owner, admin, nor the configured super-user gets an explicit denial
and no state change; "respond off" from an admin in a whitelisted group is
refused with no state change; "respond off" from an admin in a
non-whitelisted, currently-enabled group removes the group id from
`group_enabled`, and the persisting save effect precedes the confirmation
message, with a restart's `_state_load` of the saved document reading exactly
the updated state. -/
theorem c3_switch_group_semantics (cfg : Settings) (selfId : Option String)
    (ts : TrigState) (e : Event) (a : Bool)
    (h1 : e.postType = some "message") (h2 : e.messageType = some "group")
    (ht : switchTextOf e selfId ≠ "")
    (hm : matchSwitch cfg.names (switchTextOf e selfId).toList = some a)
    (hg : pyStr e.groupId ≠ "") :
    (¬ isAdminFor cfg e →
        maybeHandleTriggerSwitch cfg selfId ts (some e)
          = (true, ts, [Eff.sendGroup (pyStr e.groupId) "只有群主/管理员或超管可以使用该命令。"]))
      ∧ (isAdminFor cfg e → a = false → pyStr e.groupId ∈ cfg.triggerGroups →
          maybeHandleTriggerSwitch cfg selfId ts (some e)
            = (true, ts, [Eff.sendGroup (pyStr e.groupId) "本群为配置白名单，禁止关闭触发。"]))
      ∧ (isAdminFor cfg e → a = false → pyStr e.groupId ∉ cfg.triggerGroups →
          pyStr e.groupId ∈ ts.groupEnabled →
          maybeHandleTriggerSwitch cfg selfId ts (some e)
            = (true, { ts with groupEnabled := ts.groupEnabled.erase (pyStr e.groupId) },
               [Eff.saveState { ts with groupEnabled := ts.groupEnabled.erase (pyStr e.groupId) },
                Eff.sendGroup (pyStr e.groupId) "已关闭本群的触发。"])
            ∧ (ts.groupEnabled.Nodup →
                pyStr e.groupId ∉ (ts.groupEnabled.erase (pyStr e.groupId)))
            ∧ stateLoad true
                (ParseResult.val (trigStateToJVal
                  { ts with groupEnabled := ts.groupEnabled.erase (pyStr e.groupId) }))
                defaultTrigState
              = (trigStateToJVal
                  { ts with groupEnabled := ts.groupEnabled.erase (pyStr e.groupId) }, none)) := by
  have hpriv : e.messageType ≠ some "private" := by rw [h2]; decide
  refine ⟨?_, ?_, ?_⟩
  · intro hadm
    simp only [maybeHandleTriggerSwitch, h1, hm, ht]
    simp only [isAdminFor] at hadm
    simp [h1, hpriv, h2, hg, ht, hadm]
  · intro hadm ha hwl
    subst ha
    simp only [maybeHandleTriggerSwitch, h1, hm, ht]
    simp only [isAdminFor] at hadm
    simp [h1, hpriv, h2, hg, ht, hadm, hwl]
  · intro hadm ha hwl hen
    subst ha
    refine ⟨?_, ?_, rfl⟩
    · simp only [maybeHandleTriggerSwitch, h1, hm, ht]
      simp only [isAdminFor] at hadm
      simp [h1, hpriv, h2, hg, ht, hadm, hwl, hen]
    · intro hnd
      simp [List.Nodup.mem_erase_iff hnd]

/-- C3 witness: a concrete non-whitelisted enabled group where an admin's
"respond off" removes the group and saves before confirming, and a concrete
member denial. -/
theorem c3_witness :
    (¬ isAdminFor { names := ["洛拉娜"] }
        { postType := some "message", messageType := some "group",
          groupId := some "G2", userId := some "U",
          senderRole := some "admin", rawMessage := some "洛拉娜回应关" } →
        maybeHandleTriggerSwitch { names := ["洛拉娜"] } none { groupEnabled := ["G2"] }
          (some { postType := some "message", messageType := some "group",
                  groupId := some "G2", userId := some "U",
                  senderRole := some "admin", rawMessage := some "洛拉娜回应关" })
          = (true, { groupEnabled := ["G2"] },
             [Eff.sendGroup "G2" "只有群主/管理员或超管可以使用该命令。"]))
      ∧ (isAdminFor { names := ["洛拉娜"] }
          { postType := some "message", messageType := some "group",
            groupId := some "G2", userId := some "U",
            senderRole := some "admin", rawMessage := some "洛拉娜回应关" } →
         false = false →
         "G2" ∉ ({ names := ["洛拉娜"] } : Settings).triggerGroups →
         "G2" ∈ ({ groupEnabled := ["G2"] } : TrigState).groupEnabled →
         maybeHandleTriggerSwitch { names := ["洛拉娜"] } none { groupEnabled := ["G2"] }
           (some { postType := some "message", messageType := some "group",
                   groupId := some "G2", userId := some "U",
                   senderRole := some "admin", rawMessage := some "洛拉娜回应关" })
           = (true, { groupEnabled := List.erase ["G2"] "G2" },
              [Eff.saveState { groupEnabled := List.erase ["G2"] "G2" },
               Eff.sendGroup "G2" "已关闭本群的触发。"])
           ∧ (List.Nodup (["G2"] : List String) →
               "G2" ∉ List.erase (["G2"] : List String) "G2")
           ∧ stateLoad true
               (ParseResult.val (trigStateToJVal { groupEnabled := List.erase ["G2"] "G2" }))
               defaultTrigState
             = (trigStateToJVal { groupEnabled := List.erase ["G2"] "G2" }, none)) := by
  have h := c3_switch_group_semantics { names := ["洛拉娜"] } none { groupEnabled := ["G2"] }
    { postType := some "message", messageType := some "group",
      groupId := some "G2", userId := some "U",
      senderRole := some "admin", rawMessage := some "洛拉娜回应关" } false
    rfl rfl (by decide) (by decide) (by decide)
  exact ⟨h.1, fun hadm _ hwl hen => h.2.2 hadm rfl hwl hen⟩

/-! # Claim C4: cooldown behaviour of the trigger engine -/

theorem hct_cooldown_blocked (cfg : Settings) (selfId : Option String)
    (singles : List SingleEntry) (groups : List GroupEntry) (cds : CdMap)
    (gid uid msg : String) (ev : Option Event) (now : ℚ) (fwdId : Option String)
    (helig : triggerEligible cfg selfId msg ev = true)
    (hsuper : uid ≠ cfg.superUserId)
    (hcd : now - ((alookup (gid, uid) cds).getD 0) < cfg.triggerCooldownSeconds) :
    handleCustomTriggers cfg selfId singles groups cds gid uid msg ev now fwdId
      = (cds, []) := by
  simp [handleCustomTriggers, helig, hsuper, hcd]

theorem hct_accepted_map (cfg : Settings) (selfId : Option String)
    (singles : List SingleEntry) (groups : List GroupEntry) (cds : CdMap)
    (gid uid msg : String) (ev : Option Event) (now : ℚ) (fwdId : Option String)
    (helig : triggerEligible cfg selfId msg ev = true)
    (hsuper : uid ≠ cfg.superUserId)
    (hcd : ¬ (now - ((alookup (gid, uid) cds).getD 0) < cfg.triggerCooldownSeconds)) :
    (handleCustomTriggers cfg selfId singles groups cds gid uid msg ev now fwdId).1
      = aset (gid, uid) now cds := by
  simp only [handleCustomTriggers, helig, hsuper, hcd]
  simp only [Bool.not_true, Bool.false_eq_true, if_false, if_neg hsuper, if_neg hcd]
  cases resolveTrigger singles groups (lowerStr (srcTextOf msg ev selfId)) <;> simp [hsuper]

theorem hct_accepted_noHit (cfg : Settings) (selfId : Option String)
    (singles : List SingleEntry) (groups : List GroupEntry) (cds : CdMap)
    (gid uid msg : String) (ev : Option Event) (now : ℚ) (fwdId : Option String)
    (helig : triggerEligible cfg selfId msg ev = true)
    (hsuper : uid ≠ cfg.superUserId)
    (hcd : ¬ (now - ((alookup (gid, uid) cds).getD 0) < cfg.triggerCooldownSeconds))
    (hres : resolveTrigger singles groups (lowerStr (srcTextOf msg ev selfId))
        = Resolution.noHit) :
    (handleCustomTriggers cfg selfId singles groups cds gid uid msg ev now fwdId).2
      = [] := by
  simp only [handleCustomTriggers, helig, hsuper, hcd, hres]
  simp only [Bool.not_true, Bool.false_eq_true, if_false, if_neg hsuper, if_neg hcd, hres]
  simp [hsuper]

/-- C4 counterexample: two trigger-eligible messages (via an @-mention) from
the same non-super (group, user) pair, 5 seconds apart under a 10-second
cooldown.  The first stamps timestamp 100; the second produces no reply, and
the recorded timestamp is still 100 — it does NOT advance to 105, because the
code returns before stamping on a cooldown rejection. -/
theorem c4_counterexample_timestamp_frozen :
    (handleCustomTriggers cfgCd (some "BOT") singlesHelp [] [] "G" "U" "m"
        (some evHelp) 100 none).1 = [(("G", "U"), 100)]
      ∧ handleCustomTriggers cfgCd (some "BOT") singlesHelp [] [(("G", "U"), 100)]
          "G" "U" "m" (some evHelp) 105 none
        = ([(("G", "U"), 100)], [])
      ∧ ((100 : ℚ) ≠ 105) := by
  refine ⟨?_, ?_, by norm_num⟩
  · rw [hct_accepted_map cfgCd (some "BOT") singlesHelp [] [] "G" "U" "m"
      (some evHelp) 100 none (by decide) (by decide)
      (by simp only [alookup, Option.getD_none]; norm_num [cfgCd])]
    rfl
  · exact hct_cooldown_blocked cfgCd (some "BOT") singlesHelp [] [(("G", "U"), 100)]
      "G" "U" "m" (some evHelp) 105 none (by decide) (by decide)
      (by simp only [alookup, if_pos rfl, Option.getD_some]; norm_num [cfgCd])

/-- C4 (amended): for a trigger-eligible message from a non-super sender —
if it arrives within the cooldown threshold of the recorded timestamp, it
produces no reply and the cooldown map is left unchanged (the timestamp does
not advance); if it is accepted, the timestamp is stamped unconditionally,
even when the message subsequently matches no keyword. -/
theorem c4_cooldown_semantics (cfg : Settings) (selfId : Option String)
    (singles : List SingleEntry) (groups : List GroupEntry) (cds : CdMap)
    (gid uid msg : String) (ev : Option Event) (now : ℚ) (fwdId : Option String)
    (helig : triggerEligible cfg selfId msg ev = true)
    (hsuper : uid ≠ cfg.superUserId) :
    (now - ((alookup (gid, uid) cds).getD 0) < cfg.triggerCooldownSeconds →
        handleCustomTriggers cfg selfId singles groups cds gid uid msg ev now fwdId
          = (cds, []))
      ∧ (¬ (now - ((alookup (gid, uid) cds).getD 0) < cfg.triggerCooldownSeconds) →
          (handleCustomTriggers cfg selfId singles groups cds gid uid msg ev now fwdId).1
              = aset (gid, uid) now cds
            ∧ alookup (gid, uid)
                (handleCustomTriggers cfg selfId singles groups cds gid uid msg ev now fwdId).1
              = some now
            ∧ (resolveTrigger singles groups (lowerStr (srcTextOf msg ev selfId))
                  = Resolution.noHit →
                (handleCustomTriggers cfg selfId singles groups cds gid uid msg ev now fwdId).2
                  = [])) := by
  constructor
  · exact hct_cooldown_blocked cfg selfId singles groups cds gid uid msg ev now fwdId
      helig hsuper
  · intro hcd
    have hmap := hct_accepted_map cfg selfId singles groups cds gid uid msg ev now fwdId
      helig hsuper hcd
    exact ⟨hmap, by rw [hmap]; exact alookup_aset_self _ _ _,
      hct_accepted_noHit cfg selfId singles groups cds gid uid msg ev now fwdId
        helig hsuper hcd⟩

/-- C4 witness: a concrete pair — a blocked second message 5 s after the
stamp, and an accepted no-keyword message 20 s after it, which still stamps. -/
theorem c4_witness :
    handleCustomTriggers cfgCd (some "BOT") [] [] [(("G", "U"), 100)] "G" "U" "m"
        (some evHelp) 105 none = ([(("G", "U"), 100)], [])
      ∧ (handleCustomTriggers cfgCd (some "BOT") [] [] [(("G", "U"), 100)] "G" "U" "m"
            (some evHelp) 120 none).1 = aset ("G", "U") 120 [(("G", "U"), 100)]
      ∧ (handleCustomTriggers cfgCd (some "BOT") [] [] [(("G", "U"), 100)] "G" "U" "m"
            (some evHelp) 120 none).2 = [] := by
  have hlook : ((alookup (("G", "U") : String × String)
      ([(("G", "U"), 100)] : CdMap)).getD 0) = 100 := by
    simp [alookup]
  have h105 := c4_cooldown_semantics cfgCd (some "BOT") [] [] [(("G", "U"), 100)]
    "G" "U" "m" (some evHelp) 105 none (by decide) (by decide)
  have h120 := c4_cooldown_semantics cfgCd (some "BOT") [] [] [(("G", "U"), 100)]
    "G" "U" "m" (some evHelp) 120 none (by decide) (by decide)
  refine ⟨h105.1 (by rw [hlook]; norm_num [cfgCd]), ?_⟩
  have h2 := h120.2 (by rw [hlook]; norm_num [cfgCd])
  exact ⟨h2.1, h2.2.2 (by decide)⟩

/-! # Claim C2: keyword resolution — sorting and measure lemmas -/

theorem maxHitLen_cons (src : List Char) (x : String) (l : List String) :
    maxHitLen src (x :: l)
      = (if kwHit src x then max x.length (maxHitLen src l) else maxHitLen src l) := rfl

theorem insertOrd_mem {α : Type} (lt : α → α → Bool) (x a : α) (l : List α) :
    a ∈ insertOrd lt x l ↔ a = x ∨ a ∈ l := by
  induction l with
  | nil => simp [insertOrd]
  | cons y ys ih =>
    cases hb : lt y x with
    | false => simp [insertOrd, hb]
    | true =>
      simp only [insertOrd, hb, if_true, List.mem_cons, ih]
      tauto

theorem sortByLenDesc_mem (x : String) (l : List String) :
    x ∈ sortByLenDesc l ↔ x ∈ l := by
  induction l with
  | nil => simp [sortByLenDesc, pySorted]
  | cons y ys ih =>
    show x ∈ insertOrd _ y (pySorted _ ys) ↔ _
    rw [insertOrd_mem]
    simp only [List.mem_cons]
    rw [show (pySorted (fun a b => decide (b.length < a.length)) ys)
        = sortByLenDesc ys from rfl] at *
    tauto

theorem sortByLenDesc_pairwise (l : List String) :
    List.Pairwise (fun a b => b.length ≤ a.length) (sortByLenDesc l) := by
  have key : ∀ (x : String) (m : List String),
      List.Pairwise (fun a b => b.length ≤ a.length) m →
      List.Pairwise (fun a b => b.length ≤ a.length)
        (insertOrd (fun a b => decide (b.length < a.length)) x m) := by
    intro x m hm
    induction m with
    | nil => simp [insertOrd]
    | cons y zs ihm =>
      rcases List.pairwise_cons.mp hm with ⟨hy, hzs⟩
      by_cases h : x.length < y.length
      · simp only [insertOrd, decide_eq_true h, if_true]
        refine List.pairwise_cons.mpr ⟨?_, ihm hzs⟩
        intro z hz
        rcases (insertOrd_mem _ x z zs).mp hz with rfl | hz2
        · exact Nat.le_of_lt h
        · exact hy z hz2
      · simp only [insertOrd, decide_eq_false h, Bool.false_eq_true, if_false]
        have hxy : y.length ≤ x.length := Nat.le_of_not_lt h
        refine List.pairwise_cons.mpr ⟨?_, hm⟩
        intro z hz
        rcases List.mem_cons.mp hz with rfl | hz2
        · exact hxy
        · exact Nat.le_trans (hy z hz2) hxy
  induction l with
  | nil => exact List.Pairwise.nil
  | cons x ys ih => exact key x (pySorted _ ys) ih

theorem maxHitLen_insertOrd (src : List Char) (x : String) (l : List String) :
    maxHitLen src (insertOrd (fun a b => decide (b.length < a.length)) x l)
      = maxHitLen src (x :: l) := by
  induction l with
  | nil => rfl
  | cons y ys ih =>
    by_cases h : x.length < y.length
    · have step : insertOrd (fun a b => decide (b.length < a.length)) x (y :: ys)
          = y :: insertOrd (fun a b => decide (b.length < a.length)) x ys := by
        simp [insertOrd, decide_eq_true h]
      rw [step, maxHitLen_cons, ih, maxHitLen_cons, maxHitLen_cons, maxHitLen_cons]
      by_cases hx : kwHit src x = true <;> by_cases hy : kwHit src y = true <;>
        simp [hx, hy, Nat.max_left_comm]
    · have step : insertOrd (fun a b => decide (b.length < a.length)) x (y :: ys)
          = x :: y :: ys := by
        simp [insertOrd, decide_eq_false h]
      rw [step]

theorem maxHitLen_sortByLenDesc (src : List Char) (l : List String) :
    maxHitLen src (sortByLenDesc l) = maxHitLen src l := by
  induction l with
  | nil => rfl
  | cons x ys ih =>
    show maxHitLen src (insertOrd _ x (pySorted _ ys)) = _
    rw [maxHitLen_insertOrd, maxHitLen_cons, maxHitLen_cons]
    rw [show maxHitLen src (pySorted (fun a b => decide (b.length < a.length)) ys)
        = maxHitLen src ys from ih]

theorem maxHitLen_le (src : List Char) (kws : List String) (kw : String)
    (hmem : kw ∈ kws) (hhit : kwHit src kw = true) :
    kw.length ≤ maxHitLen src kws := by
  induction kws with
  | nil => cases hmem
  | cons x xs ih =>
    rw [maxHitLen_cons]
    rcases List.mem_cons.mp hmem with rfl | hmem2
    · simp [hhit, Nat.le_max_left]
    · by_cases hx : kwHit src x = true
      · simp only [hx, if_true]
        exact Nat.le_trans (ih hmem2) (Nat.le_max_right _ _)
      · simp only [hx, if_false]
        exact ih hmem2

theorem maxHitLen_attained (src : List Char) (kws : List String) :
    maxHitLen src kws = 0
      ∨ ∃ kw ∈ kws, kwHit src kw = true ∧ kw.length = maxHitLen src kws := by
  induction kws with
  | nil => exact Or.inl rfl
  | cons x xs ih =>
    rw [maxHitLen_cons]
    by_cases hx : kwHit src x = true
    · simp only [hx, if_true]
      rcases Nat.le_total (maxHitLen src xs) x.length with hle | hle
      · exact Or.inr ⟨x, by simp, hx, (Nat.max_eq_left hle).symm⟩
      · rcases ih with h0 | ⟨kw, hmem, hhit, hlen⟩
        · rw [h0] at hle ⊢
          exact Or.inr ⟨x, by simp, hx, by omega⟩
        · exact Or.inr ⟨kw, by simp [hmem], hhit, by rw [Nat.max_eq_right hle]; exact hlen⟩
    · simp only [hx, if_false]
      rcases ih with h0 | ⟨kw, hmem, hhit, hlen⟩
      · exact Or.inl h0
      · exact Or.inr ⟨kw, by simp [hmem], hhit, hlen⟩

/-- A hit keyword is non-empty, so a positive hit length exists whenever some
keyword hits; conversely `maxHitLen = 0` means no keyword hits. -/
theorem maxHitLen_eq_zero_iff (src : List Char) (kws : List String) :
    maxHitLen src kws = 0 ↔ ∀ kw ∈ kws, kwHit src kw = false := by
  constructor
  · intro h0 kw hmem
    by_contra hne
    have hhit : kwHit src kw = true := by
      cases hk : kwHit src kw
      · exact absurd hk hne
      · rfl
    have hlen := maxHitLen_le src kws kw hmem hhit
    rw [h0] at hlen
    have : kw.length = 0 := Nat.le_antisymm hlen (Nat.zero_le _)
    have hne2 : kw ≠ "" := by
      have := hhit
      unfold kwHit at this
      exact of_decide_eq_true (Bool.and_elim_left this)
    have : kw = "" := by
      cases kw with
      | mk data =>
        cases data with
        | nil => rfl
        | cons c cs => simp [String.length] at this
    exact hne2 this
  · intro hall
    induction kws with
    | nil => rfl
    | cons x xs ih =>
      rw [maxHitLen_cons, hall x (by simp)]
      simp only [Bool.false_eq_true, if_false]
      exact ih (fun kw hk => hall kw (by simp [hk]))

theorem find?_none_of_maxHit_le (src : List Char) (b : Nat) (l : List String)
    (h : maxHitLen src l ≤ b) :
    l.find? (fun kw => kwHit src kw && decide (b < kw.length)) = none := by
  rw [List.find?_eq_none]
  intro kw hmem
  by_cases hhit : kwHit src kw = true
  · have hle := maxHitLen_le src l kw hmem hhit
    simp only [hhit, Bool.true_and, decide_eq_true_eq, Bool.not_eq_true,
      decide_eq_false_iff_not]
    omega
  · rw [Bool.not_eq_true] at hhit
    simp [hhit]

theorem find?_some_of_lt_maxHit (src : List Char) (b : Nat) (l : List String)
    (hsorted : List.Pairwise (fun a c => c.length ≤ a.length) l)
    (hgt : b < maxHitLen src l) :
    ∃ kw, l.find? (fun kw => kwHit src kw && decide (b < kw.length)) = some kw
      ∧ kwHit src kw = true ∧ b < kw.length ∧ kw.length = maxHitLen src l := by
  induction l with
  | nil => simp [maxHitLen] at hgt
  | cons x xs ih =>
    rcases List.pairwise_cons.mp hsorted with ⟨hx, hxs⟩
    rw [maxHitLen_cons] at hgt
    by_cases hhit : kwHit src x = true
    · rw [if_pos hhit] at hgt
      have hM : maxHitLen src xs ≤ x.length := by
        rcases maxHitLen_attained src xs with h0 | ⟨kw, hmem, _, hlen⟩
        · omega
        · rw [← hlen]; exact hx kw hmem
      have hmax : max x.length (maxHitLen src xs) = x.length := Nat.max_eq_left hM
      rw [hmax] at hgt
      refine ⟨x, ?_, hhit, hgt, ?_⟩
      · rw [List.find?_cons_of_pos]
        simp [hhit, hgt]
      · rw [maxHitLen_cons, if_pos hhit, hmax]
    · rw [if_neg hhit] at hgt
      obtain ⟨kw, hfind, h1, h2, h3⟩ := ih hxs hgt
      rw [Bool.not_eq_true] at hhit
      refine ⟨kw, ?_, h1, h2, ?_⟩
      · rw [List.find?_cons_of_neg, hfind]
        simp [hhit]
      · rw [maxHitLen_cons]
        simp only [hhit, Bool.false_eq_true, if_false]
        exact h3

theorem catMax_cons {α : Type} (src : List Char) (trigsOf : α → List String)
    (e : α) (l : List α) :
    catMax src trigsOf (e :: l)
      = max (maxHitLen src (trigsOf e)) (catMax src trigsOf l) := rfl

theorem bestScan_fold_unchanged {α : Type} (src : List Char) (trigsOf : α → List String)
    (entries : List α) (acc : BestAcc α)
    (h : catMax src trigsOf entries ≤ acc.bestLen) :
    entries.foldl (bestStep src trigsOf) acc = acc := by
  induction entries generalizing acc with
  | nil => rfl
  | cons e rest ih =>
    rw [catMax_cons] at h
    have h1 : maxHitLen src (trigsOf e) ≤ acc.bestLen :=
      Nat.le_trans (Nat.le_max_left _ _) h
    have h2 : catMax src trigsOf rest ≤ acc.bestLen :=
      Nat.le_trans (Nat.le_max_right _ _) h
    have hstep : bestStep src trigsOf acc e = acc := by
      unfold bestStep
      rw [find?_none_of_maxHit_le src acc.bestLen _
        (by rw [maxHitLen_sortByLenDesc]; exact h1)]
    rw [List.foldl_cons, hstep]
    exact ih acc h2

theorem bestScan_fold_growth {α : Type} (src : List Char) (trigsOf : α → List String)
    (entries : List α) (acc : BestAcc α)
    (h : acc.bestLen < catMax src trigsOf entries) :
    (entries.foldl (bestStep src trigsOf) acc).bestLen = catMax src trigsOf entries
      ∧ ∃ e kw, (entries.foldl (bestStep src trigsOf) acc).best = some e
          ∧ (entries.foldl (bestStep src trigsOf) acc).bestKw = some kw
          ∧ entries.find?
              (fun x => maxHitLen src (trigsOf x) == catMax src trigsOf entries) = some e
          ∧ kw ∈ trigsOf e ∧ kwHit src kw = true
          ∧ kw.length = catMax src trigsOf entries := by
  induction entries generalizing acc with
  | nil => simp [catMax] at h
  | cons e rest ih =>
    rw [catMax_cons] at h
    by_cases hm : acc.bestLen < maxHitLen src (trigsOf e)
    · obtain ⟨kw, hfind, hhit, hblt, hlen⟩ := find?_some_of_lt_maxHit src acc.bestLen
        (sortByLenDesc (trigsOf e)) (sortByLenDesc_pairwise _)
        (by rw [maxHitLen_sortByLenDesc]; exact hm)
      have hlen2 : kw.length = maxHitLen src (trigsOf e) := by
        rw [hlen, maxHitLen_sortByLenDesc]
      have hstep : bestStep src trigsOf acc e = ⟨some e, kw.length, some kw⟩ := by
        unfold bestStep; rw [hfind]
      have hmem : kw ∈ trigsOf e := by
        rw [← sortByLenDesc_mem]
        exact List.mem_of_find?_eq_some hfind
      by_cases hr : catMax src trigsOf rest ≤ maxHitLen src (trigsOf e)
      · have hM : max (maxHitLen src (trigsOf e)) (catMax src trigsOf rest)
            = maxHitLen src (trigsOf e) := Nat.max_eq_left hr
        rw [List.foldl_cons, hstep,
          bestScan_fold_unchanged src trigsOf rest ⟨some e, kw.length, some kw⟩
            (by show _ ≤ kw.length; rw [hlen2]; exact hr),
          catMax_cons, hM]
        refine ⟨hlen2, e, kw, rfl, rfl, ?_, hmem, hhit, hlen2⟩
        rw [List.find?_cons_of_pos]
        simp
      · rw [Nat.not_le] at hr
        have hM : max (maxHitLen src (trigsOf e)) (catMax src trigsOf rest)
            = catMax src trigsOf rest := Nat.max_eq_right (Nat.le_of_lt hr)
        rw [List.foldl_cons, hstep, catMax_cons, hM]
        obtain ⟨hbl, e2, kw2, hb, hk, hfind2, hmem2, hhit2, hlen2b⟩ :=
          ih ⟨some e, kw.length, some kw⟩ (by show kw.length < _; rw [hlen2]; exact hr)
        refine ⟨hbl, e2, kw2, hb, hk, ?_, hmem2, hhit2, hlen2b⟩
        rw [List.find?_cons_of_neg, hfind2]
        simp only [beq_iff_eq, Bool.not_eq_true, decide_eq_false_iff_not]
        omega
    · rw [Nat.not_lt] at hm
      have hstep : bestStep src trigsOf acc e = acc := by
        unfold bestStep
        rw [find?_none_of_maxHit_le src acc.bestLen _
          (by rw [maxHitLen_sortByLenDesc]; exact hm)]
      have hr : acc.bestLen < catMax src trigsOf rest := by
        rcases lt_max_iff.mp h with h1 | h1
        · omega
        · exact h1
      have hM : max (maxHitLen src (trigsOf e)) (catMax src trigsOf rest)
          = catMax src trigsOf rest := Nat.max_eq_right (by omega)
      rw [List.foldl_cons, hstep, catMax_cons, hM]
      obtain ⟨hbl, e2, kw2, hb, hk, hfind2, hmem2, hhit2, hlen2b⟩ := ih acc hr
      refine ⟨hbl, e2, kw2, hb, hk, ?_, hmem2, hhit2, hlen2b⟩
      rw [List.find?_cons_of_neg, hfind2]
      simp only [beq_iff_eq, Bool.not_eq_true, decide_eq_false_iff_not]
      omega

theorem le_catMax {α : Type} (src : List Char) (trigsOf : α → List String)
    (entries : List α) (e : α) (hmem : e ∈ entries) :
    maxHitLen src (trigsOf e) ≤ catMax src trigsOf entries := by
  induction entries with
  | nil => cases hmem
  | cons x xs ih =>
    rw [catMax_cons]
    rcases List.mem_cons.mp hmem with rfl | hmem2
    · exact Nat.le_max_left _ _
    · exact Nat.le_trans (ih hmem2) (Nat.le_max_right _ _)

theorem bestScan_len {α : Type} (src : List Char) (trigsOf : α → List String)
    (entries : List α) :
    (bestScan src trigsOf entries).bestLen = catMax src trigsOf entries := by
  by_cases h : catMax src trigsOf entries = 0
  · unfold bestScan
    rw [bestScan_fold_unchanged src trigsOf entries ⟨none, 0, none⟩
      (by show _ ≤ 0; omega), h]
  · exact (bestScan_fold_growth src trigsOf entries ⟨none, 0, none⟩
      (by show 0 < _; omega)).1

theorem bestScan_zero {α : Type} (src : List Char) (trigsOf : α → List String)
    (entries : List α) (h : catMax src trigsOf entries = 0) :
    bestScan src trigsOf entries = ⟨none, 0, none⟩ := by
  unfold bestScan
  exact bestScan_fold_unchanged src trigsOf entries ⟨none, 0, none⟩ (by show _ ≤ 0; omega)

theorem bestScan_pos {α : Type} (src : List Char) (trigsOf : α → List String)
    (entries : List α) (h : 0 < catMax src trigsOf entries) :
    ∃ e kw, (bestScan src trigsOf entries).best = some e
      ∧ (bestScan src trigsOf entries).bestKw = some kw
      ∧ entries.find?
          (fun x => maxHitLen src (trigsOf x) == catMax src trigsOf entries) = some e
      ∧ kw ∈ trigsOf e ∧ kwHit src kw = true
      ∧ kw.length = catMax src trigsOf entries := by
  exact (bestScan_fold_growth src trigsOf entries ⟨none, 0, none⟩ (by show 0 < _; omega)).2

/-- When a grouped entry wins, what `resolveTrigger` returns. -/
theorem resolveTrigger_group_case (singles : List SingleEntry) (groups : List GroupEntry)
    (src : List Char)
    (_hg : 0 < catMax src GroupEntry.triggers groups)
    (hle : catMax src SingleEntry.triggers singles ≤ catMax src GroupEntry.triggers groups)
    (e : GroupEntry) (kw : String)
    (hb : (bestScan src GroupEntry.triggers groups).best = some e)
    (hk : (bestScan src GroupEntry.triggers groups).bestKw = some kw) :
    resolveTrigger singles groups src = Resolution.groupWin e kw := by
  simp only [resolveTrigger]
  have h1 : (bestScan src GroupEntry.triggers groups).best.isSome = true := by
    rw [hb]; rfl
  have hcond : ((bestScan src SingleEntry.triggers singles).best.isNone
      && (bestScan src GroupEntry.triggers groups).best.isNone) = false := by
    rw [hb]
    simp
  rw [hcond]
  simp only [Bool.false_eq_true, if_false]
  have hdec : (decide ((bestScan src SingleEntry.triggers singles).bestLen
      ≤ (bestScan src GroupEntry.triggers groups).bestLen)) = true := by
    rw [bestScan_len, bestScan_len]
    exact decide_eq_true hle
  rw [h1, hdec]
  simp only [Bool.and_self, if_true]
  rw [hb, hk]

/-- When a single entry wins, what `resolveTrigger` returns. -/
theorem resolveTrigger_single_case (singles : List SingleEntry) (groups : List GroupEntry)
    (src : List Char)
    (_hs : 0 < catMax src SingleEntry.triggers singles)
    (hlt : catMax src GroupEntry.triggers groups < catMax src SingleEntry.triggers singles)
    (e : SingleEntry) (kw : String)
    (hb : (bestScan src SingleEntry.triggers singles).best = some e)
    (hk : (bestScan src SingleEntry.triggers singles).bestKw = some kw) :
    resolveTrigger singles groups src = Resolution.singleWin e kw := by
  simp only [resolveTrigger]
  have hcond : ((bestScan src SingleEntry.triggers singles).best.isNone
      && (bestScan src GroupEntry.triggers groups).best.isNone) = false := by
    rw [hb]
    simp
  rw [hcond]
  simp only [Bool.false_eq_true, if_false]
  have hdec : (decide ((bestScan src SingleEntry.triggers singles).bestLen
      ≤ (bestScan src GroupEntry.triggers groups).bestLen)) = false := by
    rw [bestScan_len, bestScan_len]
    exact decide_eq_false (by omega)
  rw [hdec]
  simp only [Bool.and_false, Bool.false_eq_true, if_false]
  rw [hb, hk]

theorem resolveTrigger_noHit_case (singles : List SingleEntry) (groups : List GroupEntry)
    (src : List Char)
    (hs : catMax src SingleEntry.triggers singles = 0)
    (hg : catMax src GroupEntry.triggers groups = 0) :
    resolveTrigger singles groups src = Resolution.noHit := by
  simp only [resolveTrigger]
  rw [bestScan_zero src SingleEntry.triggers singles hs,
    bestScan_zero src GroupEntry.triggers groups hg]
  rfl

theorem hct_noHit_no_reply (cfg : Settings) (selfId : Option String)
    (singles : List SingleEntry) (groups : List GroupEntry) (cds : CdMap)
    (gid uid msg : String) (ev : Option Event) (now : ℚ) (fwdId : Option String)
    (hres : resolveTrigger singles groups (lowerStr (srcTextOf msg ev selfId))
        = Resolution.noHit) :
    (handleCustomTriggers cfg selfId singles groups cds gid uid msg ev now fwdId).2
      = [] := by
  by_cases helig : triggerEligible cfg selfId msg ev = true
  · by_cases hsuper : uid = cfg.superUserId
    · simp [handleCustomTriggers, helig, hsuper, hres]
    · by_cases hcd : now - ((alookup (gid, uid) cds).getD 0) < cfg.triggerCooldownSeconds
      · rw [hct_cooldown_blocked cfg selfId singles groups cds gid uid msg ev now fwdId
          helig hsuper hcd]
      · exact hct_accepted_noHit cfg selfId singles groups cds gid uid msg ev now fwdId
          helig hsuper hcd hres
  · rw [Bool.not_eq_true] at helig
    simp [handleCustomTriggers, helig]

/-- C2: keyword resolution searches every keyword of every entry
case-insensitively; the winner's keyword length is the maximum hit length of
its category and no hit anywhere is longer; a grouped entry wins whenever its
best length is at least the singles' best; within a category the first entry
(in iteration order) attaining the category maximum is chosen; and when
nothing hits, the resolution is no-hit, the engine sends no reply, and the
(total) handler returns normally. -/
theorem c2_keyword_resolution (singles : List SingleEntry) (groups : List GroupEntry)
    (src : List Char) :
    (resolveTrigger singles groups src = Resolution.noHit
        ↔ (catMax src SingleEntry.triggers singles = 0
            ∧ catMax src GroupEntry.triggers groups = 0))
      ∧ (∀ e kw, resolveTrigger singles groups src = Resolution.groupWin e kw →
          kw ∈ e.triggers ∧ kwHit src kw = true
            ∧ kw.length = catMax src GroupEntry.triggers groups
            ∧ catMax src SingleEntry.triggers singles
                ≤ catMax src GroupEntry.triggers groups
            ∧ groups.find? (fun x => maxHitLen src x.triggers
                == catMax src GroupEntry.triggers groups) = some e
            ∧ (∀ s2 ∈ singles, ∀ kw2 ∈ s2.triggers, kwHit src kw2 = true →
                kw2.length ≤ kw.length)
            ∧ (∀ g2 ∈ groups, ∀ kw2 ∈ g2.triggers, kwHit src kw2 = true →
                kw2.length ≤ kw.length))
      ∧ (∀ e kw, resolveTrigger singles groups src = Resolution.singleWin e kw →
          kw ∈ e.triggers ∧ kwHit src kw = true
            ∧ kw.length = catMax src SingleEntry.triggers singles
            ∧ catMax src GroupEntry.triggers groups
                < catMax src SingleEntry.triggers singles
            ∧ singles.find? (fun x => maxHitLen src x.triggers
                == catMax src SingleEntry.triggers singles) = some e
            ∧ (∀ s2 ∈ singles, ∀ kw2 ∈ s2.triggers, kwHit src kw2 = true →
                kw2.length ≤ kw.length)
            ∧ (∀ g2 ∈ groups, ∀ kw2 ∈ g2.triggers, kwHit src kw2 = true →
                kw2.length ≤ kw.length))
      ∧ (∀ (cfg : Settings) (selfId : Option String) (cds : CdMap)
            (gid uid msg : String) (ev : Option Event) (now : ℚ)
            (fwdId : Option String),
          resolveTrigger singles groups (lowerStr (srcTextOf msg ev selfId))
              = Resolution.noHit →
          (handleCustomTriggers cfg selfId singles groups cds gid uid msg ev now
              fwdId).2 = []) := by
  by_cases hs0 : catMax src SingleEntry.triggers singles = 0 <;>
    by_cases hg0 : catMax src GroupEntry.triggers groups = 0
  · have hres := resolveTrigger_noHit_case singles groups src hs0 hg0
    refine ⟨by simp [hres, hs0, hg0], ?_, ?_, ?_⟩
    · intro e kw h; rw [hres] at h; cases h
    · intro e kw h; rw [hres] at h; cases h
    · intro cfg selfId cds gid uid msg ev now fwdId h
      exact hct_noHit_no_reply cfg selfId singles groups cds gid uid msg ev now fwdId h
  · -- only groups hit: group wins
    obtain ⟨eg, kwg, hb, hk, hfind, hmem, hhit, hlen⟩ :=
      bestScan_pos src GroupEntry.triggers groups (by omega)
    have hres := resolveTrigger_group_case singles groups src (by omega) (by omega)
      eg kwg hb hk
    refine ⟨by simp [hres, hg0], ?_, ?_, ?_⟩
    · intro e kw h
      rw [hres] at h
      injection h with h1 h2
      subst h1; subst h2
      refine ⟨hmem, hhit, hlen, by omega, hfind, ?_, ?_⟩
      · intro s2 hs2 kw2 hkw2 hhit2
        have := Nat.le_trans (maxHitLen_le src s2.triggers kw2 hkw2 hhit2)
          (le_catMax src SingleEntry.triggers singles s2 hs2)
        omega
      · intro g2 hg2 kw2 hkw2 hhit2
        have := Nat.le_trans (maxHitLen_le src g2.triggers kw2 hkw2 hhit2)
          (le_catMax src GroupEntry.triggers groups g2 hg2)
        omega
    · intro e kw h; rw [hres] at h; cases h
    · intro cfg selfId cds gid uid msg ev now fwdId h
      exact hct_noHit_no_reply cfg selfId singles groups cds gid uid msg ev now fwdId h
  · -- only singles hit: single wins
    obtain ⟨es, kws, hb, hk, hfind, hmem, hhit, hlen⟩ :=
      bestScan_pos src SingleEntry.triggers singles (by omega)
    have hres := resolveTrigger_single_case singles groups src (by omega) (by omega)
      es kws hb hk
    refine ⟨by simp [hres, hs0], ?_, ?_, ?_⟩
    · intro e kw h; rw [hres] at h; cases h
    · intro e kw h
      rw [hres] at h
      injection h with h1 h2
      subst h1; subst h2
      refine ⟨hmem, hhit, hlen, by omega, hfind, ?_, ?_⟩
      · intro s2 hs2 kw2 hkw2 hhit2
        have := Nat.le_trans (maxHitLen_le src s2.triggers kw2 hkw2 hhit2)
          (le_catMax src SingleEntry.triggers singles s2 hs2)
        omega
      · intro g2 hg2 kw2 hkw2 hhit2
        have := Nat.le_trans (maxHitLen_le src g2.triggers kw2 hkw2 hhit2)
          (le_catMax src GroupEntry.triggers groups g2 hg2)
        omega
    · intro cfg selfId cds gid uid msg ev now fwdId h
      exact hct_noHit_no_reply cfg selfId singles groups cds gid uid msg ev now fwdId h
  · -- both categories hit: compare the maxima
    by_cases hcmp : catMax src SingleEntry.triggers singles
        ≤ catMax src GroupEntry.triggers groups
    · obtain ⟨eg, kwg, hb, hk, hfind, hmem, hhit, hlen⟩ :=
        bestScan_pos src GroupEntry.triggers groups (by omega)
      have hres := resolveTrigger_group_case singles groups src (by omega) hcmp eg kwg hb hk
      refine ⟨by simp [hres, hg0], ?_, ?_, ?_⟩
      · intro e kw h
        rw [hres] at h
        injection h with h1 h2
        subst h1; subst h2
        refine ⟨hmem, hhit, hlen, hcmp, hfind, ?_, ?_⟩
        · intro s2 hs2 kw2 hkw2 hhit2
          have := Nat.le_trans (maxHitLen_le src s2.triggers kw2 hkw2 hhit2)
            (le_catMax src SingleEntry.triggers singles s2 hs2)
          omega
        · intro g2 hg2 kw2 hkw2 hhit2
          have := Nat.le_trans (maxHitLen_le src g2.triggers kw2 hkw2 hhit2)
            (le_catMax src GroupEntry.triggers groups g2 hg2)
          omega
      · intro e kw h; rw [hres] at h; cases h
      · intro cfg selfId cds gid uid msg ev now fwdId h
        exact hct_noHit_no_reply cfg selfId singles groups cds gid uid msg ev now fwdId h
    · obtain ⟨es, kws, hb, hk, hfind, hmem, hhit, hlen⟩ :=
        bestScan_pos src SingleEntry.triggers singles (by omega)
      have hres := resolveTrigger_single_case singles groups src (by omega) (by omega)
        es kws hb hk
      refine ⟨by simp [hres, hs0], ?_, ?_, ?_⟩
      · intro e kw h; rw [hres] at h; cases h
      · intro e kw h
        rw [hres] at h
        injection h with h1 h2
        subst h1; subst h2
        refine ⟨hmem, hhit, hlen, by omega, hfind, ?_, ?_⟩
        · intro s2 hs2 kw2 hkw2 hhit2
          have := Nat.le_trans (maxHitLen_le src s2.triggers kw2 hkw2 hhit2)
            (le_catMax src SingleEntry.triggers singles s2 hs2)
          omega
        · intro g2 hg2 kw2 hkw2 hhit2
          have := Nat.le_trans (maxHitLen_le src g2.triggers kw2 hkw2 hhit2)
            (le_catMax src GroupEntry.triggers groups g2 hg2)
          omega
      · intro cfg selfId cds gid uid msg ev now fwdId h
        exact hct_noHit_no_reply cfg selfId singles groups cds gid uid msg ev now fwdId h

/-- C2 witness: with keywords `"ab"` and `"abc"` configured (in that order)
and message text `"abcd"`, resolution picks `"abc"` — the longest match — and
its length is the category maximum, with the winning entry the first
attaining it; and a grouped `"xy"` beats a single `"x"` on `"xyz"`. -/
theorem c2_witness :
    resolveTrigger [{ triggers := ["ab"], orderKey := "0", body := "B1" },
        { triggers := ["abc"], orderKey := "1", body := "B2" }] [] (lowerStr "abcd")
      = Resolution.singleWin { triggers := ["abc"], orderKey := "1", body := "B2" } "abc"
      ∧ "abc" ∈ ({ triggers := ["abc"], orderKey := "1", body := "B2" } : SingleEntry).triggers
      ∧ kwHit (lowerStr "abcd") "abc" = true
      ∧ "abc".length = catMax (lowerStr "abcd") SingleEntry.triggers
          [{ triggers := ["ab"], orderKey := "0", body := "B1" },
           { triggers := ["abc"], orderKey := "1", body := "B2" }]
      ∧ catMax (lowerStr "abcd") GroupEntry.triggers []
          < catMax (lowerStr "abcd") SingleEntry.triggers
              [{ triggers := ["ab"], orderKey := "0", body := "B1" },
               { triggers := ["abc"], orderKey := "1", body := "B2" }]
      ∧ resolveTrigger [{ triggers := ["x"], orderKey := "0", body := "S" }]
          [{ triggers := ["xy"], dirKey := "d", parts := [("0", "P")] }] (lowerStr "xyz")
        = Resolution.groupWin { triggers := ["xy"], dirKey := "d", parts := [("0", "P")] } "xy"
      ∧ catMax (lowerStr "xyz") SingleEntry.triggers
            [{ triggers := ["x"], orderKey := "0", body := "S" }]
          ≤ catMax (lowerStr "xyz") GroupEntry.triggers
              [{ triggers := ["xy"], dirKey := "d", parts := [("0", "P")] }] := by
  have hres1 : resolveTrigger [{ triggers := ["ab"], orderKey := "0", body := "B1" },
      { triggers := ["abc"], orderKey := "1", body := "B2" }] [] (lowerStr "abcd")
      = Resolution.singleWin { triggers := ["abc"], orderKey := "1", body := "B2" } "abc" := by
    decide
  have hres2 : resolveTrigger [{ triggers := ["x"], orderKey := "0", body := "S" }]
      [{ triggers := ["xy"], dirKey := "d", parts := [("0", "P")] }] (lowerStr "xyz")
      = Resolution.groupWin { triggers := ["xy"], dirKey := "d", parts := [("0", "P")] } "xy" := by
    decide
  have h1 := (c2_keyword_resolution [{ triggers := ["ab"], orderKey := "0", body := "B1" },
      { triggers := ["abc"], orderKey := "1", body := "B2" }] [] (lowerStr "abcd")).2.2.1
    { triggers := ["abc"], orderKey := "1", body := "B2" } "abc" hres1
  have h2 := (c2_keyword_resolution [{ triggers := ["x"], orderKey := "0", body := "S" }]
      [{ triggers := ["xy"], dirKey := "d", parts := [("0", "P")] }] (lowerStr "xyz")).2.1
    { triggers := ["xy"], dirKey := "d", parts := [("0", "P")] } "xy" hres2
  exact ⟨hres1, h1.1, h1.2.1, h1.2.2.1.symm ▸ rfl, h1.2.2.2.1, hres2, h2.2.2.2.1⟩

/-! # Claim C1: the debounced welcome scheduler -/

/-- The append-if-absent fold that `handle_new_member` applies to the
pending list, over a whole arrival sequence. -/
theorem foldl_appendIfAbsent (us : List String) : ∀ acc : List String,
    ∃ t, us.foldl (fun acc u => if u ∈ acc then acc else acc ++ [u]) acc = acc ++ t
      ∧ t.Sublist us
      ∧ (∀ x, x ∈ acc ++ t ↔ x ∈ acc ∨ x ∈ us)
      ∧ (acc.Nodup → (acc ++ t).Nodup) := by
  induction us with
  | nil =>
    intro acc
    exact ⟨[], by simp, List.nil_sublist _, by simp, by simp⟩
  | cons u rest ih =>
    intro acc
    by_cases hu : u ∈ acc
    · obtain ⟨t, heq, hsub, hmem, hnd⟩ := ih acc
      refine ⟨t, by simpa [hu] using heq, hsub.cons u, ?_, hnd⟩
      intro x
      rw [hmem x]
      constructor
      · rintro (h | h)
        · exact Or.inl h
        · exact Or.inr (by simp [h])
      · rintro (h | h)
        · exact Or.inl h
        · rcases List.mem_cons.mp h with rfl | h2
          · exact Or.inl hu
          · exact Or.inr h2
    · obtain ⟨t, heq, hsub, hmem, hnd⟩ := ih (acc ++ [u])
      refine ⟨u :: t, ?_, hsub.cons₂ u, ?_, ?_⟩
      · rw [List.foldl_cons]
        simp only [hu, if_false]
        rw [heq, List.append_assoc]
        rfl
      · intro x
        have := hmem x
        rw [List.append_assoc] at this
        simp only [List.singleton_append] at this
        rw [this]
        simp only [List.mem_cons, List.mem_append]
        tauto
      · intro hnda
        have : (acc ++ [u]).Nodup := by
          rw [List.nodup_append]
          exact ⟨hnda, List.nodup_singleton u, by simpa using hu⟩
        have h2 := hnd this
        rw [List.append_assoc] at h2
        exact h2

theorem dedupFirst_spec (us : List String) :
    (dedupFirst us).Sublist us ∧ (dedupFirst us).Nodup
      ∧ (∀ x, x ∈ dedupFirst us ↔ x ∈ us) := by
  obtain ⟨t, heq, hsub, hmem, hnd⟩ := foldl_appendIfAbsent us []
  have h0 : dedupFirst us = t := by
    unfold dedupFirst
    rw [heq]
    rfl
  refine ⟨h0 ▸ hsub, h0 ▸ (by simpa using hnd List.nodup_nil), ?_⟩
  intro x
  rw [h0]
  have := hmem x
  simpa using this

theorem dedupFirst_ne_nil (us : List String) (h : us ≠ []) : dedupFirst us ≠ [] := by
  cases us with
  | nil => exact absurd rfl h
  | cons u rest =>
    have hmem := (dedupFirst_spec (u :: rest)).2.2 u
    intro hnil
    rw [hnil] at hmem
    simp at hmem

/-- well-formedness carried through a join sequence: every cancelled id and
every live timer id is below the allocation counter. -/
def WInv (g : String) (s : WState) : Prop :=
  (∀ t ∈ s.cancelled, t < s.nextId) ∧ (∀ t, alookup g s.timers = some t → t < s.nextId)

theorem handleNewMember_fields (cfg : Settings) (nowMs : Nat) (s : WState) (g u : String) :
    let h := handleNewMember cfg nowMs s g u
    h.2.1 = s.nextId
      ∧ h.1.nextId = s.nextId + 1
      ∧ alookup g h.1.records
          = some (if u ∈ (alookup g s.records).getD [] then (alookup g s.records).getD []
                  else (alookup g s.records).getD [] ++ [u])
      ∧ alookup g h.1.timers = some s.nextId
      ∧ (∀ t, t ∈ h.1.cancelled ↔ t ∈ s.cancelled ∨ alookup g s.timers = some t) := by
  refine ⟨rfl, rfl, ?_, ?_, ?_⟩
  · exact alookup_aset_self g _ s.records
  · exact alookup_aset_self g _ s.timers
  · intro t
    show t ∈ (match alookup g s.timers with
              | some t0 => t0 :: s.cancelled
              | none => s.cancelled) ↔ _
    cases htm : alookup g s.timers with
    | none => simp
    | some t0 =>
      simp only [List.mem_cons, Option.some.injEq]
      constructor
      · rintro (rfl | h)
        · exact Or.inr rfl
        · exact Or.inl h
      · rintro (h | rfl)
        · exact Or.inr h
        · exact Or.inl rfl

theorem processJoins_nextId (cfg : Settings) (nowMs : Nat) (g : String) :
    ∀ (us : List String) (s : WState),
      (processJoins cfg nowMs g us s).1.nextId = s.nextId + us.length := by
  intro us
  induction us with
  | nil => intro s; rfl
  | cons u rest ih =>
    intro s
    show (processJoins cfg nowMs g rest (handleNewMember cfg nowMs s g u).1).1.nextId = _
    rw [ih, (handleNewMember_fields cfg nowMs s g u).2.1]
    simp [List.length_cons]
    omega

theorem processJoins_tids (cfg : Settings) (nowMs : Nat) (g : String) :
    ∀ (us : List String) (s : WState),
      (processJoins cfg nowMs g us s).2 = List.range' s.nextId us.length := by
  intro us
  induction us with
  | nil => intro s; rfl
  | cons u rest ih =>
    intro s
    show (handleNewMember cfg nowMs s g u).2.1
        :: (processJoins cfg nowMs g rest (handleNewMember cfg nowMs s g u).1).2 = _
    rw [ih, (handleNewMember_fields cfg nowMs s g u).1,
      (handleNewMember_fields cfg nowMs s g u).2.1, List.length_cons, List.range'_succ]

theorem processJoins_records (cfg : Settings) (nowMs : Nat) (g : String) :
    ∀ (us : List String) (s : WState), us ≠ [] →
      alookup g (processJoins cfg nowMs g us s).1.records
        = some (us.foldl (fun acc u => if u ∈ acc then acc else acc ++ [u])
            ((alookup g s.records).getD [])) := by
  intro us
  induction us with
  | nil => intro s h; exact absurd rfl h
  | cons u rest ih =>
    intro s _
    have hf := (handleNewMember_fields cfg nowMs s g u).2.2.1
    show alookup g
        (processJoins cfg nowMs g rest (handleNewMember cfg nowMs s g u).1).1.records = _
    cases rest with
    | nil =>
      show alookup g (handleNewMember cfg nowMs s g u).1.records = _
      rw [hf]
      rfl
    | cons v vs =>
      rw [ih _ (by simp), hf]
      simp only [Option.getD_some, List.foldl_cons]

theorem processJoins_timers (cfg : Settings) (nowMs : Nat) (g : String) :
    ∀ (us : List String) (s : WState), us ≠ [] →
      alookup g (processJoins cfg nowMs g us s).1.timers
        = some (s.nextId + us.length - 1) := by
  intro us
  induction us with
  | nil => intro s h; exact absurd rfl h
  | cons u rest ih =>
    intro s _
    have hf := (handleNewMember_fields cfg nowMs s g u).2.2.2.1
    show alookup g
        (processJoins cfg nowMs g rest (handleNewMember cfg nowMs s g u).1).1.timers = _
    cases rest with
    | nil =>
      show alookup g (handleNewMember cfg nowMs s g u).1.timers = _
      rw [hf]
      simp
    | cons v vs =>
      rw [ih _ (by simp), (handleNewMember_fields cfg nowMs s g u).2.1]
      congr 1
      simp only [List.length_cons]
      omega

theorem processJoins_cancelled_mono (cfg : Settings) (nowMs : Nat) (g : String) :
    ∀ (us : List String) (s : WState) (t : Nat), t ∈ s.cancelled →
      t ∈ (processJoins cfg nowMs g us s).1.cancelled := by
  intro us
  induction us with
  | nil => intro s t h; exact h
  | cons u rest ih =>
    intro s t h
    show t ∈ (processJoins cfg nowMs g rest (handleNewMember cfg nowMs s g u).1).1.cancelled
    exact ih _ t (((handleNewMember_fields cfg nowMs s g u).2.2.2.2 t).mpr (Or.inl h))

theorem processJoins_timer_cancelled (cfg : Settings) (nowMs : Nat) (g : String)
    (us : List String) (s : WState) (t : Nat) (hne : us ≠ [])
    (ht : alookup g s.timers = some t) :
    t ∈ (processJoins cfg nowMs g us s).1.cancelled := by
  cases us with
  | nil => exact absurd rfl hne
  | cons u rest =>
    show t ∈ (processJoins cfg nowMs g rest (handleNewMember cfg nowMs s g u).1).1.cancelled
    exact processJoins_cancelled_mono cfg nowMs g rest _ t
      (((handleNewMember_fields cfg nowMs s g u).2.2.2.2 t).mpr (Or.inr ht))

theorem handleNewMember_inv (cfg : Settings) (nowMs : Nat) (s : WState) (g u : String)
    (h : WInv g s) : WInv g (handleNewMember cfg nowMs s g u).1 := by
  obtain ⟨hc, ht⟩ := h
  constructor
  · intro t htc
    rw [(handleNewMember_fields cfg nowMs s g u).2.1]
    rcases ((handleNewMember_fields cfg nowMs s g u).2.2.2.2 t).mp htc with h1 | h1
    · exact Nat.lt_trans (hc t h1) (Nat.lt_succ_self _)
    · exact Nat.lt_trans (ht t h1) (Nat.lt_succ_self _)
  · intro t htm
    rw [(handleNewMember_fields cfg nowMs s g u).2.2.2.1] at htm
    injection htm with htm
    rw [(handleNewMember_fields cfg nowMs s g u).2.1, ← htm]
    exact Nat.lt_succ_self _

theorem processJoins_last_not_cancelled (cfg : Settings) (nowMs : Nat) (g : String) :
    ∀ (us : List String) (s : WState), WInv g s → us ≠ [] →
      (s.nextId + us.length - 1) ∉ (processJoins cfg nowMs g us s).1.cancelled := by
  intro us
  induction us with
  | nil => intro s _ h; exact absurd rfl h
  | cons u rest ih =>
    intro s hinv _
    show _ ∉ (processJoins cfg nowMs g rest (handleNewMember cfg nowMs s g u).1).1.cancelled
    cases rest with
    | nil =>
      simp only [List.length_cons, List.length_nil]
      intro hmem
      rcases ((handleNewMember_fields cfg nowMs s g u).2.2.2.2 _).mp hmem with h1 | h1
      · have := hinv.1 _ h1
        omega
      · have := hinv.2 _ h1
        omega
    | cons v vs =>
      have heq : s.nextId + (u :: v :: vs).length - 1
          = (handleNewMember cfg nowMs s g u).1.nextId + (v :: vs).length - 1 := by
        rw [(handleNewMember_fields cfg nowMs s g u).2.1]
        simp only [List.length_cons]
        omega
      rw [heq]
      exact ih _ (handleNewMember_inv cfg nowMs s g u hinv) (by simp)

theorem processJoins_pre_cancelled (cfg : Settings) (nowMs : Nat) (g : String) :
    ∀ (us : List String) (s : WState) (i : Nat), i + 1 < us.length →
      (s.nextId + i) ∈ (processJoins cfg nowMs g us s).1.cancelled := by
  intro us
  induction us with
  | nil => intro s i h; simp at h
  | cons u rest ih =>
    intro s i h
    show _ ∈ (processJoins cfg nowMs g rest (handleNewMember cfg nowMs s g u).1).1.cancelled
    cases i with
    | zero =>
      have hrest : rest ≠ [] := by
        simp only [List.length_cons] at h
        intro hr
        rw [hr] at h
        simp at h
      exact processJoins_timer_cancelled cfg nowMs g rest _ (s.nextId + 0) hrest
        (by rw [(handleNewMember_fields cfg nowMs s g u).2.2.2.1]; simp)
    | succ j =>
      have heq : s.nextId + (j + 1) = (handleNewMember cfg nowMs s g u).1.nextId + j := by
        rw [(handleNewMember_fields cfg nowMs s g u).2.1]
        omega
      rw [heq]
      exact ih _ j (by simp only [List.length_cons] at h; omega)

theorem aset_append_single {β : Type} (g : String) (v cur : β)
    (base : List (String × β)) (h : alookup g base = none) :
    aset g v (base ++ [(g, cur)]) = base ++ [(g, v)] := by
  induction base with
  | nil => simp [aset]
  | cons p t ih =>
    rw [alookup_eq_none_iff] at h
    have hp : p.1 ≠ g := h p (by simp)
    have ht : alookup g t = none := by
      rw [alookup_eq_none_iff]; exact fun q hq => h q (by simp [hq])
    simp only [List.cons_append, aset, hp, if_false, List.append_eq]
    rw [ih ht]

theorem processJoins_records_structure (cfg : Settings) (nowMs : Nat) (g : String) :
    ∀ (us : List String) (s : WState) (base : List (String × List String))
      (cur : List String),
      s.records = base ++ [(g, cur)] → alookup g base = none →
      (processJoins cfg nowMs g us s).1.records
        = base ++ [(g, us.foldl (fun acc u => if u ∈ acc then acc else acc ++ [u]) cur)] := by
  intro us
  induction us with
  | nil =>
    intro s base cur hs _
    exact hs
  | cons u rest ih =>
    intro s base cur hs hb
    show (processJoins cfg nowMs g rest (handleNewMember cfg nowMs s g u).1).1.records = _
    have hcur : (alookup g s.records).getD [] = cur := by
      rw [hs, alookup_append_single g cur base hb]
      rfl
    have h1 : (handleNewMember cfg nowMs s g u).1.records
        = base ++ [(g, if u ∈ cur then cur else cur ++ [u])] := by
      have hrfl : (handleNewMember cfg nowMs s g u).1.records
          = aset g (if u ∈ (alookup g s.records).getD []
                    then (alookup g s.records).getD []
                    else (alookup g s.records).getD [] ++ [u]) s.records := rfl
      rw [hrfl, hcur, hs, aset_append_single g _ cur base hb]
    rw [ih _ base _ h1 hb, List.foldl_cons]


theorem processJoins_timers_structure (cfg : Settings) (nowMs : Nat) (g : String) :
    ∀ (us : List String) (s : WState) (base : List (String × Nat)) (t0 : Nat),
      us ≠ [] →
      s.timers = base ++ [(g, t0)] → alookup g base = none →
      ∃ tl : Nat, (processJoins cfg nowMs g us s).1.timers = base ++ [(g, tl)] := by
  intro us
  induction us with
  | nil => intro s base t0 h; exact absurd rfl h
  | cons u rest ih =>
    intro s base t0 _ hs hb
    show ∃ tl, (processJoins cfg nowMs g rest (handleNewMember cfg nowMs s g u).1).1.timers = _
    have h1 : (handleNewMember cfg nowMs s g u).1.timers = base ++ [(g, s.nextId)] := by
      have hrfl : (handleNewMember cfg nowMs s g u).1.timers
          = aset g s.nextId s.timers := rfl
      rw [hrfl, hs, aset_append_single g _ t0 base hb]
    cases rest with
    | nil => exact ⟨s.nextId, h1⟩
    | cons v vs => exact ih _ base s.nextId (by simp) h1 hb

theorem scheduleWelcomeRun_cancelled (cfg : Settings) (content : WelcomeContent)
    (selfId : Option String) (s : WState) (g : String) (tid : Nat)
    (h : tid ∈ s.cancelled) :
    scheduleWelcomeRun cfg content selfId s g tid = (s, []) := by
  simp [scheduleWelcomeRun, h]

theorem scheduleWelcomeRun_live (cfg : Settings) (content : WelcomeContent)
    (selfId : Option String) (s : WState) (g : String) (tid : Nat)
    (h : tid ∉ s.cancelled) :
    scheduleWelcomeRun cfg content selfId s g tid
      = ((scheduleWelcomeBody cfg content selfId s g).1,
         Eff.sleep cfg.welcomeDelaySeconds
           :: (scheduleWelcomeBody cfg content selfId s g).2) := by
  simp [scheduleWelcomeRun, h]

theorem scheduleWelcomeBody_fires (cfg : Settings) (content : WelcomeContent)
    (selfId : Option String) (s : WState) (g : String) (lst : List String)
    (hrec : alookup g s.records = some lst) (hne : lst ≠ []) :
    scheduleWelcomeBody cfg content selfId s g
      = ({ s with records := aerase g s.records, timers := aerase g s.timers },
         greetingEffs cfg content selfId g lst) := by
  cases lst with
  | nil => exact absurd rfl hne
  | cons x xs => simp [scheduleWelcomeBody, hrec]

theorem fireTimers_nil (cfg : Settings) (content : WelcomeContent)
    (selfId : Option String) (g : String) (s : WState) :
    fireTimers cfg content selfId g [] s = (s, []) := rfl

theorem fireTimers_cons (cfg : Settings) (content : WelcomeContent)
    (selfId : Option String) (g : String) (t : Nat) (rest : List Nat) (s : WState) :
    fireTimers cfg content selfId g (t :: rest) s
      = ((fireTimers cfg content selfId g rest
            (scheduleWelcomeRun cfg content selfId s g t).1).1,
         (scheduleWelcomeRun cfg content selfId s g t).2
           ++ (fireTimers cfg content selfId g rest
                (scheduleWelcomeRun cfg content selfId s g t).1).2) := rfl

theorem fireTimers_all_cancelled (cfg : Settings) (content : WelcomeContent)
    (selfId : Option String) (g : String) :
    ∀ (tids : List Nat) (s : WState), (∀ t ∈ tids, t ∈ s.cancelled) →
      fireTimers cfg content selfId g tids s = (s, []) := by
  intro tids
  induction tids with
  | nil => intro s _; rfl
  | cons t rest ih =>
    intro s h
    rw [fireTimers_cons,
      scheduleWelcomeRun_cancelled cfg content selfId s g t (h t (by simp))]
    simp [ih s (fun x hx => h x (List.mem_cons_of_mem t hx))]

theorem fireTimers_append (cfg : Settings) (content : WelcomeContent)
    (selfId : Option String) (g : String) (as bs : List Nat) : ∀ s : WState,
    fireTimers cfg content selfId g (as ++ bs) s
      = ((fireTimers cfg content selfId g bs (fireTimers cfg content selfId g as s).1).1,
         (fireTimers cfg content selfId g as s).2
           ++ (fireTimers cfg content selfId g bs
                (fireTimers cfg content selfId g as s).1).2) := by
  induction as with
  | nil => intro s; rfl
  | cons t rest ih =>
    intro s
    rw [List.cons_append]
    simp only [fireTimers_cons]
    rw [ih]
    simp [List.append_assoc]

theorem fireTimers_single (cfg : Settings) (content : WelcomeContent)
    (selfId : Option String) (g : String) (t : Nat) (s : WState) :
    fireTimers cfg content selfId g [t] s
      = ((scheduleWelcomeRun cfg content selfId s g t).1,
         (scheduleWelcomeRun cfg content selfId s g t).2) := by
  rw [fireTimers_cons]
  simp [fireTimers_nil]

/-- C1: for any non-empty sequence of join events for one group handled
within the delay window (each join cancels the previous timer before it
fires), running every created timer task produces the effect trace of exactly
one greeting — the delay sleep followed by the scripted sends for the
first-occurrence-deduplicated arrival list — and afterwards both the
pending-welcome entry and the timer entry for the group are gone.  The
mention list is a duplicate-free sublist of the arrivals containing every
arriving user, i.e. each distinct user exactly once in first-arrival order. -/
theorem c1_welcome_batching (cfg : Settings) (content : WelcomeContent)
    (selfId : Option String) (nowMs : Nat) (g : String) (us : List String)
    (s0 : WState)
    (hrec : alookup g s0.records = none)
    (htim : alookup g s0.timers = none)
    (hcanc : ∀ t ∈ s0.cancelled, t < s0.nextId)
    (hne : us ≠ []) :
    (fireTimers cfg content selfId g (processJoins cfg nowMs g us s0).2
        (processJoins cfg nowMs g us s0).1).2
      = Eff.sleep cfg.welcomeDelaySeconds
          :: greetingEffs cfg content selfId g (dedupFirst us)
      ∧ (dedupFirst us).Sublist us
      ∧ (dedupFirst us).Nodup
      ∧ (∀ x, x ∈ dedupFirst us ↔ x ∈ us)
      ∧ alookup g (fireTimers cfg content selfId g (processJoins cfg nowMs g us s0).2
          (processJoins cfg nowMs g us s0).1).1.records = none
      ∧ alookup g (fireTimers cfg content selfId g (processJoins cfg nowMs g us s0).2
          (processJoins cfg nowMs g us s0).1).1.timers = none := by
  obtain ⟨L, hL⟩ : ∃ L, us.length = L + 1 := by
    cases us with
    | nil => exact absurd rfl hne
    | cons u rest => exact ⟨rest.length, rfl⟩
  obtain ⟨hsub, hnd, hmem⟩ := dedupFirst_spec us
  have hdne : dedupFirst us ≠ [] := dedupFirst_ne_nil us hne
  have hinv : WInv g s0 := ⟨hcanc, fun t ht => by rw [htim] at ht; cases ht⟩
  have htids : (processJoins cfg nowMs g us s0).2 = List.range' s0.nextId us.length :=
    processJoins_tids cfg nowMs g us s0
  have hrecs : alookup g (processJoins cfg nowMs g us s0).1.records
      = some (dedupFirst us) := by
    rw [processJoins_records cfg nowMs g us s0 hne, hrec]
    rfl
  have hsplit : List.range' s0.nextId us.length
      = List.range' s0.nextId L ++ [s0.nextId + L] := by
    rw [hL, List.range'_concat]
    simp
  have hpre : ∀ t ∈ List.range' s0.nextId L,
      t ∈ (processJoins cfg nowMs g us s0).1.cancelled := by
    intro t ht
    rw [List.mem_range'_1] at ht
    obtain ⟨h1, h2⟩ := ht
    have h3 : t = s0.nextId + (t - s0.nextId) := by omega
    rw [h3]
    exact processJoins_pre_cancelled cfg nowMs g us s0 (t - s0.nextId) (by omega)
  have hlast := processJoins_last_not_cancelled cfg nowMs g us s0 hinv hne
  have heqL : s0.nextId + us.length - 1 = s0.nextId + L := by omega
  rw [heqL] at hlast
  have hfire : fireTimers cfg content selfId g (processJoins cfg nowMs g us s0).2
      (processJoins cfg nowMs g us s0).1
      = ({ (processJoins cfg nowMs g us s0).1 with
            records := aerase g (processJoins cfg nowMs g us s0).1.records,
            timers := aerase g (processJoins cfg nowMs g us s0).1.timers },
         Eff.sleep cfg.welcomeDelaySeconds
           :: greetingEffs cfg content selfId g (dedupFirst us)) := by
    rw [htids, hsplit, fireTimers_append,
      fireTimers_all_cancelled cfg content selfId g _ _ hpre]
    show ((fireTimers cfg content selfId g [s0.nextId + L]
            (processJoins cfg nowMs g us s0).1).1,
          [] ++ (fireTimers cfg content selfId g [s0.nextId + L]
            (processJoins cfg nowMs g us s0).1).2) = _
    rw [fireTimers_single, scheduleWelcomeRun_live cfg content selfId _ g _ hlast,
      scheduleWelcomeBody_fires cfg content selfId _ g (dedupFirst us) hrecs hdne]
    simp only [List.nil_append]
  have hstruct : (processJoins cfg nowMs g us s0).1.records
      = s0.records ++ [(g, dedupFirst us)] := by
    cases us with
    | nil => exact absurd rfl hne
    | cons u rest =>
      have h1rec : (handleNewMember cfg nowMs s0 g u).1.records
          = s0.records ++ [(g, [u])] := by
        have hrfl : (handleNewMember cfg nowMs s0 g u).1.records
            = aset g (if u ∈ (alookup g s0.records).getD []
                      then (alookup g s0.records).getD []
                      else (alookup g s0.records).getD [] ++ [u]) s0.records := rfl
        rw [hrfl, hrec, aset_of_not_mem g _ s0.records hrec]
        simp
      show (processJoins cfg nowMs g rest (handleNewMember cfg nowMs s0 g u).1).1.records = _
      cases rest with
      | nil => exact h1rec
      | cons v vs =>
        rw [processJoins_records_structure cfg nowMs g (v :: vs) _ s0.records [u]
          h1rec hrec]
        rfl
  obtain ⟨tl, hstructT⟩ : ∃ tl, (processJoins cfg nowMs g us s0).1.timers
      = s0.timers ++ [(g, tl)] := by
    cases us with
    | nil => exact absurd rfl hne
    | cons u rest =>
      have h1tim : (handleNewMember cfg nowMs s0 g u).1.timers
          = s0.timers ++ [(g, s0.nextId)] := by
        have hrfl : (handleNewMember cfg nowMs s0 g u).1.timers
            = aset g s0.nextId s0.timers := rfl
        rw [hrfl, aset_of_not_mem g _ s0.timers htim]
      show ∃ tl, (processJoins cfg nowMs g rest
          (handleNewMember cfg nowMs s0 g u).1).1.timers = _
      cases rest with
      | nil => exact ⟨s0.nextId, h1tim⟩
      | cons v vs =>
        exact processJoins_timers_structure cfg nowMs g (v :: vs) _ s0.timers s0.nextId
          (by simp) h1tim htim
  refine ⟨by rw [hfire], hsub, hnd, hmem, ?_, ?_⟩
  · rw [hfire]
    show alookup g (aerase g (processJoins cfg nowMs g us s0).1.records) = none
    rw [hstruct, aerase_append_single g _ s0.records hrec]
    exact hrec
  · rw [hfire]
    show alookup g (aerase g (processJoins cfg nowMs g us s0).1.timers) = none
    rw [hstructT, aerase_append_single g _ s0.timers htim]
    exact htim

/-- C1 witness: three joins (one duplicate) in a fresh group; firing all
three created timers yields exactly one greeting trace mentioning
`["u1", "u2"]`, and both maps end up without the group. -/
theorem c1_witness :
    (fireTimers { logGroup := "L" } { plain := [("000", "hi")] } (some "BOT") "G"
        (processJoins { logGroup := "L" } 5 "G" ["u1", "u2", "u1"] {}).2
        (processJoins { logGroup := "L" } 5 "G" ["u1", "u2", "u1"] {}).1).2
      = Eff.sleep ({ logGroup := "L" } : Settings).welcomeDelaySeconds
          :: greetingEffs { logGroup := "L" } { plain := [("000", "hi")] } (some "BOT")
              "G" (dedupFirst ["u1", "u2", "u1"])
      ∧ (dedupFirst ["u1", "u2", "u1"]).Sublist ["u1", "u2", "u1"]
      ∧ (dedupFirst ["u1", "u2", "u1"]).Nodup
      ∧ alookup "G" (fireTimers { logGroup := "L" } { plain := [("000", "hi")] }
          (some "BOT") "G"
          (processJoins { logGroup := "L" } 5 "G" ["u1", "u2", "u1"] {}).2
          (processJoins { logGroup := "L" } 5 "G" ["u1", "u2", "u1"] {}).1).1.records
        = none
      ∧ alookup "G" (fireTimers { logGroup := "L" } { plain := [("000", "hi")] }
          (some "BOT") "G"
          (processJoins { logGroup := "L" } 5 "G" ["u1", "u2", "u1"] {}).2
          (processJoins { logGroup := "L" } 5 "G" ["u1", "u2", "u1"] {}).1).1.timers
        = none := by
  have h := c1_welcome_batching { logGroup := "L" } { plain := [("000", "hi")] }
    (some "BOT") 5 "G" ["u1", "u2", "u1"] {} rfl rfl (by simp) (by simp)
  exact ⟨h.1, h.2.1, h.2.2.1, h.2.2.2.2.1, h.2.2.2.2.2⟩

/-! # Claim C9: the operator's fixed test command -/

/-- C9: when the super-user sends the fixed test command in an enabled
welcome group, the pending list is replaced with just the invoking user and
the existing timer (id 7) is cancelled and dropped — but the greeting does
NOT fire immediately: `schedule_welcome` is awaited directly and its
unconditional sleep of the configured `welcome_delay_seconds` (60) appears in
the trace before any greeting send, even though the code's own log line says
"立即执行" (execute immediately).  The trace below exhibits the
`Eff.sleep 60` right after the log send. -/
theorem c9_test_command_sleeps_delay :
    dispatchEvent { logGroup := "L", welcomeGroups := ["G"], superUserId := "SU" }
        { plain := [("000", "hi")] } [] []
        { w := { records := [("G", ["x", "y"])], timers := [("G", 7)],
                 cancelled := [], nextId := 8 } }
        { ev := { postType := some "message", messageType := some "group",
                  groupId := some "G", userId := some "SU",
                  rawMessage := some "Another Me，测试迎新" } }
      = Except.ok
          ({ selfId := none,
             w := { records := [], timers := [], cancelled := [7], nextId := 8 },
             cds := [], trig := {} },
           [Eff.sendGroup "L" "【日志】收到测试迎新指令，立即执行：G",
            Eff.sleep ({ logGroup := "L", welcomeGroups := ["G"],
                         superUserId := "SU" } : Settings).welcomeDelaySeconds,
            Eff.sendGroup "L" "【日志】开始发送欢迎消息：G",
            Eff.sendGroup "G" "hi",
            Eff.sleep ({ logGroup := "L", welcomeGroups := ["G"],
                         superUserId := "SU" } : Settings).welcomeGapSeconds,
            Eff.sendGroup "G" (atText ["SU"])]) := by
  rfl

end WelcomeBot
